import Mathlib

/-!
Verification development for the network-coordinate and vehicle-placement core
of `flow/scenarios/base_scenario.py` (class `Scenario`).

The Python source is shallowly embedded below.  Real numbers of the source are
modelled as rationals (`ℚ`), Python `int` as `ℤ`.  Python exceptions
(`KeyError`, `AssertionError`, `ValueError`, `IndexError`, `StopIteration`,
`TypeError`) are modelled by `Except String` / `Option`: an `.error`/`none`
result means the Python code raises.  Python `while` loops that have no
syntactic termination measure are given a fuel parameter; running out of fuel
produces the distinguished error `errFuel` (a diverging Python loop), so every
`.ok` result of the model coincides with the result of the Python code.
Randomness (`random.random()`, `np.random.normal`) is modelled by an injected
stream of sample values, one per draw, in draw order.  The XML/file-system side
of the class (net/cfg/route file generation) and the `total_veh_types`
vehicle-type accumulator are outside the modelled fragment: no claim depends on
them.  Python `dict(pairs)` lookup (later pairs override earlier ones) is
modelled by `dlookup`, which searches the reversed pair list.
-/

/-- `VEHICLE_LENGTH = 5` (module-level constant of the source). -/
def VEHICLE_LENGTH : ℚ := 5

def errFuel : String := "model fuel exhausted"
def errNoneEdge : String := "TypeError: get_edge returned None"
def errStopIter : String := "StopIteration"
def errIndex : String := "IndexError"
def errType : String := "TypeError"
def errAssert : String := "AssertionError: vehicle count mismatch"
def errMaxEmpty : String := "ValueError: max of empty sequence"
def errSpace : String := "ValueError: not enough space to place all vehicles"

/-- Python float modulo `a % m` (result has the divisor's sign; here used with
positive divisors only). -/
def qmod (a m : ℚ) : ℚ := a - m * ⌊a / m⌋

/-- Python `int(q)`: truncation toward zero. -/
def pyint (q : ℚ) : ℤ := if 0 ≤ q then ⌊q⌋ else -⌊-q⌋

/-- Python `max(list)`: `none` on the empty list (a `ValueError`). -/
def listMax : List ℤ → Option ℤ
  | [] => none
  | x :: xs => some (xs.foldl max x)

/-- Lookup in a Python `dict` built from a pair list: later pairs override
earlier ones, hence the first match in the reversed list. -/
def dlookup (l : List (String × ℚ)) (k : String) : Option ℚ :=
  l.reverse.lookup k

/-- Python `s.rsplit("_", 1)[0]`: everything before the last underscore, or the
whole string when it has no underscore. -/
def rsplitUnderscore (s : String) : String :=
  match s.data.reverse.dropWhile (fun c => c != '_') with
  | [] => s
  | _ :: rest => String.mk rest.reverse

def insertSorted (a : ℚ) : List ℚ → List ℚ
  | [] => [a]
  | b :: bs => if a ≤ b then a :: b :: bs else b :: insertSorted a bs

/-- Python `list.sort()` on rationals (ascending; on values the result does not
depend on the sorting algorithm). -/
def sortQ (l : List ℚ) : List ℚ := l.foldr insertSorted []

/-- The duplicate filter of `Scenario.__init__` (lines 138-141 of the source):
`[item for item in lst if item[1] not in seen and not seen.add(item[1])]`.
Note that `item[1]` is the START POSITION of the `(edge_id, pos)` pair. -/
def dedupByPos : List ℚ → List (String × ℚ) → List (String × ℚ)
  | _, [] => []
  | seen, item :: rest =>
    if item.2 ∈ seen then dedupByPos seen rest
    else item :: dedupByPos (item.2 :: seen) rest

/-- Merge of internal and intersection edge starts performed by
`Scenario.__init__`: concatenation followed by the duplicate filter. -/
def mergeInternalEdgestarts (internal intersection : List (String × ℚ)) :
    List (String × ℚ) :=
  dedupByPos [] (internal ++ intersection)

/-- One entry of the `_edges` table: `length`, `lanes`, `speed`. -/
structure EdgeInfo where
  length : ℚ
  lanes : ℤ
  speed : ℚ
deriving DecidableEq, Repr

/-- The state of a constructed `Scenario` that the placement/coordinate
methods read: `_edges`, `internal_edgestarts` (after the merge),
`total_edgestarts` (after sorting by position), `length`, and the two
connection maps.  They are built once in `__init__` and read-only afterwards. -/
structure Scenario where
  edges : List (String × EdgeInfo)
  internal_edgestarts : List (String × ℚ)
  total_edgestarts : List (String × ℚ)
  length : ℚ
  conn_next : List (String × List (ℤ × List (String × ℤ)))
  conn_prev : List (String × List (ℤ × List (String × ℤ)))
deriving DecidableEq, Repr

/-- `Scenario.edge_length`: length of an edge, `-1001` when not found. -/
def Scenario.edge_length (sc : Scenario) (edge_id : String) : ℚ :=
  match sc.edges.lookup edge_id with
  | some e => e.length
  | none => -1001

/-- `Scenario.speed_limit`: speed limit of an edge, `-1001` when not found. -/
def Scenario.speed_limit (sc : Scenario) (edge_id : String) : ℚ :=
  match sc.edges.lookup edge_id with
  | some e => e.speed
  | none => -1001

/-- `Scenario.num_lanes`: lane count of an edge, `-1001` when not found. -/
def Scenario.num_lanes (sc : Scenario) (edge_id : String) : ℤ :=
  match sc.edges.lookup edge_id with
  | some e => e.lanes
  | none => -1001

/-- `Scenario.get_edge_list` / `_edge_list`: identifiers of `_edges` whose
first character is not `":"`. -/
def Scenario.get_edge_list (sc : Scenario) : List String :=
  (sc.edges.map Prod.fst).filter (fun edge_id => edge_id.take 1 != ":")

/-- `Scenario.next_edge`: `self._connections["next"][edge][lane]`, an empty
list on any `KeyError`. -/
def Scenario.next_edge (sc : Scenario) (edge : String) (lane : ℤ) :
    List (String × ℤ) :=
  match sc.conn_next.lookup edge with
  | none => []
  | some lm =>
    match lm.lookup lane with
    | none => []
    | some l => l

/-- `Scenario.prev_edge`: `self._connections["prev"][edge][lane]`, an empty
list on any `KeyError`. -/
def Scenario.prev_edge (sc : Scenario) (edge : String) (lane : ℤ) :
    List (String × ℤ) :=
  match sc.conn_prev.lookup edge with
  | none => []
  | some lm =>
    match lm.lookup lane with
    | none => []
    | some l => l

/-- `Scenario.get_edge`: reverse scan of the position-sorted
`total_edgestarts`, returning the first entry whose start is `≤ x` together
with the relative offset.  `none` models the implicit Python `None` when no
entry qualifies. -/
def Scenario.get_edge (sc : Scenario) (x : ℚ) : Option (String × ℚ) :=
  match sc.total_edgestarts.reverse.find? (fun p => decide (p.2 ≤ x)) with
  | some p => some (p.1, x - p.2)
  | none => none

/-- `Scenario.get_x`: absolute position of `(edge, position)`.  Empty edge name
gives the sentinel `-1001`; a `":"`-prefixed edge is looked up in
`internal_edgestarts_dict` with the `rsplit`-fallback into
`total_edgestarts_dict` (sentinel default); any other edge is looked up in
`total_edgestarts_dict`, where a miss raises `KeyError` (modelled by `none`). -/
def Scenario.get_x (sc : Scenario) (edge : String) (position : ℚ) : Option ℚ :=
  if edge.length = 0 then some (-1001)
  else if edge.take 1 = ":" then
    match dlookup sc.internal_edgestarts edge with
    | some v => some (v + position)
    | none =>
      some ((dlookup sc.total_edgestarts (rsplitUnderscore edge)).getD (-1001))
  else
    match dlookup sc.total_edgestarts edge with
    | some v => some (v + position)
    | none => none

/-- A value of the mapping form of `edges_distribution`: an integer count or a
list of `(vehicle_type, count)` pairs. -/
inductive EdgeDistVal where
  | count (n : ℤ)
  | pairs (l : List (String × ℤ))
deriving DecidableEq, Repr

/-- The `edges_distribution` parameter: the literal `"all"`, an explicit list
of edges, or a mapping from edge id to `EdgeDistVal`. -/
inductive EdgesDistribution where
  | all
  | lst (edges : List String)
  | dct (m : List (String × EdgeDistVal))
deriving DecidableEq, Repr

/-- The fields of `InitialConfig` read by the placement code. -/
structure InitialConfig where
  x0 : ℚ
  min_gap : ℚ
  bunching : ℚ
  lanes_distribution : ℤ
  perturbation : ℚ
  edges_distribution : EdgesDistribution
deriving DecidableEq, Repr

/-- The per-call `**kwargs` override map used on scenario reset: optional
`x0` and `bunching` entries. -/
structure Kwargs where
  x0 : Option ℚ
  bunching : Option ℚ
deriving DecidableEq, Repr

/-- The list of candidate edges determined by `edges_distribution`:
`get_edge_list()` for `"all"`, the list itself, or the mapping's keys. -/
def distEdges (sc : Scenario) : EdgesDistribution → List String
  | .all => sc.get_edge_list
  | .lst l => l
  | .dct m => m.map Prod.fst

/-- `min_gap = max(0, initial_config.min_gap)`. -/
def resolvedMinGap (cfg : InitialConfig) : ℚ := max 0 cfg.min_gap

/-- `x0`, overridden by the kwargs entry when present. -/
def resolvedX0 (cfg : InitialConfig) (kw : Kwargs) : ℚ :=
  match kw.x0 with
  | some v => v
  | none => cfg.x0

/-- `bunching`: the config value clamped to `0` when negative, then overridden
(without clamping) by the kwargs entry when present. -/
def resolvedBunching (cfg : InitialConfig) (kw : Kwargs) : ℚ :=
  match kw.bunching with
  | some v => v
  | none => if cfg.bunching < 0 then 0 else cfg.bunching

/-- `max_lane`: maximum lane count over the candidate edges (`none` models the
`ValueError` of `max([])`). -/
def maxLaneOpt (sc : Scenario) (dist : EdgesDistribution) : Option ℤ :=
  listMax ((distEdges sc dist).map sc.num_lanes)

/-- `lanes_distribution` clamped into `[1, max_lane]` (upper clamp first, as in
the source). -/
def lanesDistClamped (cfg : InitialConfig) (max_lane : ℤ) : ℤ :=
  if cfg.lanes_distribution > max_lane then max_lane
  else if cfg.lanes_distribution < 1 then 1
  else cfg.lanes_distribution

/-- Eligible edges: candidate edges strictly longer than
`min_gap + VEHICLE_LENGTH`. -/
def availableEdges (sc : Scenario) (dist : EdgesDistribution) (min_gap : ℚ) :
    List String :=
  (distEdges sc dist).filter
    (fun e => decide (min_gap + VEHICLE_LENGTH < sc.edge_length e))

/-- Distributable length: sum over eligible edges of
`edge_length × min(lane_count, lanes_distribution)`. -/
def distributionLength (sc : Scenario) (dist : EdgesDistribution)
    (min_gap : ℚ) (ld : ℤ) : ℚ :=
  (availableEdges sc dist min_gap).foldl
    (fun acc e => acc + sc.edge_length e * ((min (sc.num_lanes e) ld : ℤ) : ℚ)) 0

/-- `Scenario._get_start_pos_util`: resolves `x0`, `min_gap`, `bunching` and
`lanes_distribution`, computes the available length, raises `ValueError` when
it is negative, and returns
`(x0, min_gap, bunching, lanes_distribution, available_length, available_edges)`
(the returned, unmodified `initial_config` of the source is omitted: the
function never writes to it). -/
def Scenario.getStartPosUtil (sc : Scenario) (cfg : InitialConfig) (nv : ℤ)
    (kw : Kwargs) : Except String (ℚ × ℚ × ℚ × ℤ × ℚ × List String) :=
  match maxLaneOpt sc cfg.edges_distribution with
  | none => .error errMaxEmpty
  | some max_lane =>
    if distributionLength sc cfg.edges_distribution (resolvedMinGap cfg)
          (lanesDistClamped cfg max_lane)
        - (lanesDistClamped cfg max_lane : ℚ) * resolvedBunching cfg kw
        - (nv : ℚ) * (resolvedMinGap cfg + VEHICLE_LENGTH) < 0 then
      .error errSpace
    else
      .ok (resolvedX0 cfg kw, resolvedMinGap cfg, resolvedBunching cfg kw,
        lanesDistClamped cfg max_lane,
        distributionLength sc cfg.edges_distribution (resolvedMinGap cfg)
            (lanesDistClamped cfg max_lane)
          - (lanesDistClamped cfg max_lane : ℚ) * resolvedBunching cfg kw
          - (nv : ℚ) * (resolvedMinGap cfg + VEHICLE_LENGTH),
        availableEdges sc cfg.edges_distribution (resolvedMinGap cfg))

/-- The junction-skip loop of `gen_even_start_pos`: while the resolved edge is
in `internal_edgestarts`, jump to the start of the next edge of
`total_edgestarts` (wrapping to the first at the end). -/
def skipInternal (sc : Scenario) : ℕ → ℚ → String × ℚ →
    Except String (ℚ × (String × ℚ))
  | 0, x, pos =>
    if sc.internal_edgestarts.any (fun q => q.1 == pos.1) then .error errFuel
    else .ok (x, pos)
  | fuel + 1, x, pos =>
    if sc.internal_edgestarts.any (fun q => q.1 == pos.1) then
      match sc.total_edgestarts.findIdx? (fun t => t.1 == pos.1) with
      | none => .error errStopIter
      | some indx =>
        match (if indx = sc.total_edgestarts.length - 1 then
                sc.total_edgestarts.get? 0
              else sc.total_edgestarts.get? (indx + 1)) with
        | none => .error errIndex
        | some t => skipInternal sc fuel t.2 (t.1, 0)
    else .ok (x, pos)

/-- The eligibility loop of `gen_even_start_pos`: while the resolved edge is
not in `available_edges`, advance `x` by that edge's length modulo the network
length and re-resolve. -/
def findAvailable (sc : Scenario) (avail : List String) : ℕ → ℚ → String × ℚ →
    Except String (ℚ × (String × ℚ))
  | 0, x, pos =>
    if pos.1 ∈ avail then .ok (x, pos) else .error errFuel
  | fuel + 1, x, pos =>
    if pos.1 ∈ avail then .ok (x, pos)
    else
      match sc.get_edge (qmod (x + sc.edge_length pos.1) sc.length) with
      | none => .error errNoneEdge
      | some pos2 =>
        findAvailable sc avail fuel (qmod (x + sc.edge_length pos.1) sc.length)
          pos2

/-- The variable-lane-count adjustment of `gen_even_start_pos`: when lane
counts differ across the network and the resolved offset is under one vehicle
length, clamp the offset up to `VEHICLE_LENGTH`, advance `x` accordingly, and
shrink the remaining increment proportionally to the vehicles left to place.
Returns the adjusted `(x, pos, increment)`. -/
def evenAdjust (sc : Scenario) (flag : Bool) (nv cc : ℤ) (inc x2 : ℚ)
    (pos2 : String × ℚ) : ℚ × (String × ℚ) × ℚ :=
  if flag ∧ pos2.2 < VEHICLE_LENGTH then
    (x2 + VEHICLE_LENGTH, (pos2.1, VEHICLE_LENGTH),
      inc - VEHICLE_LENGTH * ((sc.num_lanes pos2.1 : ℤ) : ℚ)
        / ((nv : ℚ) - (cc : ℚ)))
  else (x2, pos2, inc)

/-- The number of vehicles placed side by side at one accepted position: one
per lane index from `0` up to `min(lane_count, lanes_distribution) - 1`,
stopping when the vehicle quota is met. -/
def lanesPlaced (sc : Scenario) (lanes_distr : ℤ) (nv cc : ℤ)
    (edge : String) : ℕ :=
  (min (min (sc.num_lanes edge) lanes_distr) (nv - cc)).toNat

/-- The main `while car_count < num_vehicles` loop of `gen_even_start_pos`:
state is `(fuel, x, car_count, increment, startpositions, startlanes)`. -/
def evenLoop (sc : Scenario) (avail : List String) (lanes_distr : ℤ)
    (min_gap : ℚ) (nv : ℤ) (flag : Bool) :
    ℕ → ℚ → ℤ → ℚ → List (String × ℚ) → List ℤ →
    Except String (List (String × ℚ) × List ℤ)
  | 0, _, cc, _, ps, ls =>
    if cc < nv then .error errFuel else .ok (ps, ls)
  | fuel + 1, x, cc, inc, ps, ls =>
    if cc < nv then
      match sc.get_edge x with
      | none => .error errNoneEdge
      | some pos =>
        match skipInternal sc fuel x pos with
        | .error e => .error e
        | .ok (x1, pos1) =>
          match findAvailable sc avail fuel x1 pos1 with
          | .error e => .error e
          | .ok (x2, pos2) =>
            match evenAdjust sc flag nv cc inc x2 pos2 with
            | (x3, pos3, inc3) =>
              evenLoop sc avail lanes_distr min_gap nv flag fuel
                (qmod (x3 + inc3 + VEHICLE_LENGTH + min_gap) sc.length)
                (cc + (lanesPlaced sc lanes_distr nv cc pos3.1 : ℤ)) inc3
                (ps ++ List.replicate (lanesPlaced sc lanes_distr nv cc pos3.1)
                  pos3)
                (ls ++ (List.range (lanesPlaced sc lanes_distr nv cc pos3.1)).map
                  (fun i => (i : ℤ)))
    else .ok (ps, ls)

/-- The perturbation block of `gen_even_start_pos`: for each `i` in
`range(num_vehicles)`, add the sampled Gaussian offset to position `i` and
clamp into `[0, edge_length]`. -/
def perturbLoop (sc : Scenario) (perturbs : ℕ → ℚ) :
    List ℕ → List (String × ℚ) → Except String (List (String × ℚ))
  | [], ps => .ok ps
  | i :: rest, ps =>
    match ps.get? i with
    | none => .error errIndex
    | some q =>
      perturbLoop sc perturbs rest
        (ps.set i (q.1, max 0 (min (sc.edge_length q.1) (q.2 + perturbs i))))

/-- `any(lanes[0] != lanes[i] for i in range(1, len(lanes)))`: true when not
all edges of the network carry the same lane count (the generator expression
never indexes an empty list because its range is then empty). -/
def laneFlag : List ℤ → Bool
  | [] => false
  | l0 :: rest => rest.any (fun li => li != l0)

/-- The non-mapping path of `gen_even_start_pos` (uniform placement).  Returns
the start positions, start lanes, and the (unchanged) `initial_config`. -/
def genEvenCore (sc : Scenario) (fuel : ℕ) (cfg : InitialConfig) (nv : ℤ)
    (kw : Kwargs) (perturbs : ℕ → ℚ) :
    Except String (List (String × ℚ) × List ℤ × InitialConfig) :=
  match sc.getStartPosUtil cfg nv kw with
  | .error e => .error e
  | .ok (x0, min_gap, _bunching, lanes_distr, available_length,
      available_edges) =>
    if nv = 0 then .ok ([], [], cfg)
    else
      match evenLoop sc available_edges lanes_distr min_gap nv
          (laneFlag (sc.get_edge_list.map sc.num_lanes)) fuel x0 0
          (available_length / (nv : ℚ)) [] [] with
      | .error e => .error e
      | .ok (ps, ls) =>
        if cfg.perturbation > 0 then
          match perturbLoop sc perturbs (List.range nv.toNat) ps with
          | .error e => .error e
          | .ok ps2 => .ok (ps2, ls, cfg)
        else .ok (ps, ls, cfg)

/-- Sum of the integer values of a mapping-form distribution (first value was
an `int`; a pair-list value raises `TypeError`). -/
def sumCountVals : List (String × EdgeDistVal) → Except String ℤ
  | [] => .ok 0
  | (_, .count n) :: rest =>
    match sumCountVals rest with
    | .error e => .error e
    | .ok s => .ok (n + s)
  | (_, .pairs _) :: _ => .error errType

/-- Sum of the pair-counts of a mapping-form distribution (first value was a
pair list; an `int` value raises `TypeError`). -/
def sumPairVals : List (String × EdgeDistVal) → Except String ℤ
  | [] => .ok 0
  | (_, .pairs l) :: rest =>
    match sumPairVals rest with
    | .error e => .error e
    | .ok s => .ok ((l.map Prod.snd).sum + s)
  | (_, .count _) :: _ => .error errType

/-- `num_vehicles_e` of the mapping branch: dispatch on the type of the first
value (`IndexError` on an empty mapping, from `keys[0]`). -/
def distSum : List (String × EdgeDistVal) → Except String ℤ
  | [] => .error errIndex
  | l@((_, .count _) :: _) => sumCountVals l
  | l@((_, .pairs _) :: _) => sumPairVals l

/-- The per-key vehicle count used by the mapping branch. -/
def edvCount : EdgeDistVal → ℤ
  | .count n => n
  | .pairs l => (l.map Prod.snd).sum

/-- The key loop of the mapping branch of `gen_even_start_pos`: for each key,
`initial_config.edges_distribution` is overwritten with `[key]` (a mutation of
the caller's object, threaded here as state) and the generator recurses, which
lands in the non-mapping path. -/
def genEvenDictLoop (sc : Scenario) (fuel : ℕ) (kw : Kwargs)
    (perturbs : ℕ → ℚ) :
    List (String × EdgeDistVal) → InitialConfig → List (String × ℚ) →
    List ℤ → Except String (List (String × ℚ) × List ℤ × InitialConfig)
  | [], cfg, ps, ls => .ok (ps, ls, cfg)
  | (key, v) :: rest, cfg, ps, ls =>
    match genEvenCore sc fuel { cfg with edges_distribution := .lst [key] }
        (edvCount v) kw perturbs with
    | .error e => .error e
    | .ok (p, l, cfg3) =>
      genEvenDictLoop sc fuel kw perturbs rest cfg3 (ps ++ p) (ls ++ l)

/-- `Scenario.gen_even_start_pos`: mapping-form distributions first check that
the per-key counts sum to `num_vehicles` (an `assert`), then iterate the keys;
otherwise the uniform placement runs directly. -/
def gen_even_start_pos (sc : Scenario) (fuel : ℕ) (cfg : InitialConfig)
    (nv : ℤ) (kw : Kwargs) (perturbs : ℕ → ℚ) :
    Except String (List (String × ℚ) × List ℤ × InitialConfig) :=
  match cfg.edges_distribution with
  | .dct m =>
    match distSum m with
    | .error e => .error e
    | .ok s =>
      if nv = s then genEvenDictLoop sc fuel kw perturbs m cfg [] []
      else .error errAssert
  | _ => genEvenCore sc fuel cfg nv kw perturbs

/-- The edge/lane walk of `gen_random_start_pos` for one adjusted sample `a`:
starting from the running `(decrement, edge_indx)`, compute the offset and lane
on the current eligible edge, advancing to the next eligible edge while the
lane index exceeds the edge's usable lane count (`IndexError` when the walk
runs off the eligible list). -/
def randomInner (sc : Scenario) (avail : List String) (lanes_distr : ℤ)
    (efs : ℚ) (a : ℚ) : ℕ → ℚ → ℕ →
    Except String (ℚ × ℕ × (String × ℚ) × ℤ)
  | fuel, dec, idx =>
    match avail.get? idx with
    | none => .error errIndex
    | some e =>
      let span := sc.edge_length e - efs
      let p0 := qmod (a - dec) span
      let lane := pyint ((a - dec - p0) / span)
      if lane > min (sc.num_lanes e) lanes_distr - 1 then
        match fuel with
        | 0 => .error errFuel
        | fuel + 1 =>
          randomInner sc avail lanes_distr efs a fuel
            (dec + ((min (sc.num_lanes e) lanes_distr : ℤ) : ℚ) * span)
            (idx + 1)
      else .ok (dec, idx, (e, p0 + efs), lane)

/-- The per-vehicle loop of `gen_random_start_pos` over the adjusted sorted
samples. -/
def randomLoop (sc : Scenario) (avail : List String) (lanes_distr : ℤ)
    (efs : ℚ) (fuel : ℕ) : List ℚ → ℚ → ℕ → List (String × ℚ) → List ℤ →
    Except String (List (String × ℚ) × List ℤ)
  | [], _, _, ps, ls => .ok (ps, ls)
  | a :: rest, dec, idx, ps, ls =>
    match randomInner sc avail lanes_distr efs a fuel dec idx with
    | .error e => .error e
    | .ok (dec2, idx2, pos, lane) =>
      randomLoop sc avail lanes_distr efs fuel rest dec2 idx2 (ps ++ [pos])
        (ls ++ [lane])

/-- The adjusted sample list of `gen_random_start_pos`: subtract the per-edge
front space from the available length, draw `num_vehicles` uniform samples
(`rand i` is the `i`-th `random.random()` draw) over it, sort them, and shift
the `i`-th sorted sample by `i × (VEHICLE_LENGTH + min_gap)`. -/
def randomInit (sc : Scenario) (nv : ℤ) (rand : ℕ → ℚ) (min_gap : ℚ)
    (lanes_distr : ℤ) (available_length : ℚ) (available_edges : List String) :
    List ℚ :=
  (sortQ ((List.range nv.toNat).map (fun i =>
    rand i * (available_edges.foldl
      (fun acc e => acc - (min_gap + VEHICLE_LENGTH)
        * ((min (sc.num_lanes e) lanes_distr : ℤ) : ℚ))
      available_length)))).enum.map
    (fun p => p.2 + (VEHICLE_LENGTH + min_gap) * (p.1 : ℚ))

/-- The non-mapping path of `gen_random_start_pos`: compute the adjusted
samples and walk the eligible edges with `randomLoop`. -/
def genRandomCore (sc : Scenario) (fuel : ℕ) (cfg : InitialConfig) (nv : ℤ)
    (kw : Kwargs) (rand : ℕ → ℚ) :
    Except String (List (String × ℚ) × List ℤ × InitialConfig) :=
  match sc.getStartPosUtil cfg nv kw with
  | .error e => .error e
  | .ok (_x0, min_gap, _bunching, lanes_distr, available_length,
      available_edges) =>
    match randomLoop sc available_edges lanes_distr
        (min_gap + VEHICLE_LENGTH) fuel
        (randomInit sc nv rand min_gap lanes_distr available_length
          available_edges) 0 0 [] [] with
    | .error e => .error e
    | .ok (ps, ls) => .ok (ps, ls, cfg)

/-- The key loop of the mapping branch of `gen_random_start_pos` (identical in
structure to the even one; the count-mismatch assertion of the even generator
is commented out in this one). -/
def genRandomDictLoop (sc : Scenario) (fuel : ℕ) (kw : Kwargs)
    (rand : ℕ → ℚ) :
    List (String × EdgeDistVal) → InitialConfig → List (String × ℚ) →
    List ℤ → Except String (List (String × ℚ) × List ℤ × InitialConfig)
  | [], cfg, ps, ls => .ok (ps, ls, cfg)
  | (key, v) :: rest, cfg, ps, ls =>
    match genRandomCore sc fuel { cfg with edges_distribution := .lst [key] }
        (edvCount v) kw rand with
    | .error e => .error e
    | .ok (p, l, cfg3) =>
      genRandomDictLoop sc fuel kw rand rest cfg3 (ps ++ p) (ls ++ l)

/-- `Scenario.gen_random_start_pos`: the mapping branch iterates the keys with
no vehicle-count validation (the assertion is commented out in the source);
otherwise the random placement runs directly. -/
def gen_random_start_pos (sc : Scenario) (fuel : ℕ) (cfg : InitialConfig)
    (nv : ℤ) (kw : Kwargs) (rand : ℕ → ℚ) :
    Except String (List (String × ℚ) × List ℤ × InitialConfig) :=
  match cfg.edges_distribution with
  | .dct m => genRandomDictLoop sc fuel kw rand m cfg [] []
  | _ => genRandomCore sc fuel cfg nv kw rand

/-- Empty per-call override map. -/
def kw0 : Kwargs := ⟨none, none⟩

/-- Zero perturbation/sample stream. -/
def pert0 : ℕ → ℚ := fun _ => 0

/-- Two-edge scenario used to evaluate the coordinate round-trip. -/
def c1Sc : Scenario :=
  ⟨[("a", ⟨10, 1, 30⟩), ("b", ⟨20, 1, 30⟩)], [], [("a", 0), ("b", 10)], 30,
    [], []⟩

/-- One-edge scenario used to evaluate the unknown-identifier queries. -/
def c3Sc : Scenario :=
  ⟨[("a", ⟨10, 1, 30⟩)], [], [("a", 0)], 10, [("a", [(0, [("a", 0)])])],
    [("a", [(0, [("a", 0)])])]⟩

/-- One-edge scenario for the weighted-distribution generators. -/
def c2Sc : Scenario :=
  ⟨[("a", ⟨100, 1, 30⟩)], [], [("a", 0)], 100, [], []⟩

/-- Weighted (mapping-form) configuration whose counts sum to 3. -/
def c2Cfg : InitialConfig :=
  ⟨0, 2, 0, 1, 0, .dct [("a", .count 3)]⟩

/-- Two-edge scenario for the mapping-form mutation check. -/
def c5Sc : Scenario :=
  ⟨[("a", ⟨100, 1, 30⟩), ("b", ⟨50, 1, 30⟩)], [], [("a", 0), ("b", 100)],
    150, [], []⟩

/-- Mapping-form configuration with one vehicle per edge. -/
def c5Cfg : InitialConfig :=
  ⟨0, 0, 0, 1, 0, .dct [("a", .count 1), ("b", .count 1)]⟩

/-- Single-edge scenario of the uniform-spacing property: one eligible edge of
length `L`, one lane, edge start at the origin. -/
def c7Scenario (L : ℚ) : Scenario :=
  ⟨[("e", ⟨L, 1, 30⟩)], [], [("e", 0)], L, [], []⟩

/-- Configuration of the uniform-spacing property: `x0 = 0`, `min_gap = g`,
no bunching, no perturbation, all edges eligible. -/
def c7Config (g : ℚ) : InitialConfig :=
  ⟨0, g, 0, 1, 0, .all⟩

/-- Scenario with an internal junction `":j"` between two road edges. -/
def c8Sc : Scenario :=
  ⟨[("a", ⟨80, 1, 30⟩), ("b", ⟨20, 1, 30⟩), (":j", ⟨5, 1, 30⟩)],
    [(":j", 80)], [("a", 0), (":j", 80), ("b", 85)], 105, [], []⟩

/-- Uniform configuration over all edges with no perturbation. -/
def c8Cfg : InitialConfig := ⟨0, 0, 0, 1, 0, .all⟩

/-- Single short edge (length 20) for the perturbation-clamp property. -/
def c9Sc : Scenario :=
  ⟨[("a", ⟨20, 1, 30⟩)], [], [("a", 0)], 20, [], []⟩

/-- Configuration with `perturbation = 1`. -/
def c9Cfg : InitialConfig := ⟨0, 0, 0, 1, 1, .all⟩

/-- One-edge scenario for the capacity/bunching checks. -/
def c10Sc : Scenario :=
  ⟨[("a", ⟨100, 1, 30⟩)], [], [("a", 0)], 100, [], []⟩

/-- Plain configuration with `bunching = 0`. -/
def c10Cfg : InitialConfig := ⟨0, 0, 0, 1, 0, .all⟩

/-- Override map supplying a negative bunching value on reset. -/
def kwNeg : Kwargs := ⟨none, some (-5)⟩

/-- Configuration with a negative `bunching` and no override. -/
def c10CfgNeg : InitialConfig := ⟨0, 0, -3, 1, 0, .all⟩

/-! ## Lemmas and claim theorems -/

theorem dedupByPos_sublist (l : List (String × ℚ)) :
    ∀ seen, (dedupByPos seen l).Sublist l := by
  induction l with
  | nil => intro seen; simp [dedupByPos]
  | cons a t ih =>
    intro seen
    rw [dedupByPos]
    split
    · exact (ih seen).cons a
    · exact (ih (a.2 :: seen)).cons₂ a

theorem dedupByPos_mem_spec :
    ∀ (l : List (String × ℚ)) (seen : List ℚ) (it : String × ℚ),
      it ∈ dedupByPos seen l →
      it.2 ∉ seen ∧ l.find? (fun q => decide (q.2 = it.2)) = some it := by
  intro l
  induction l with
  | nil => intro seen it h; simp [dedupByPos] at h
  | cons a t ih =>
    intro seen it h
    by_cases hmem : a.2 ∈ seen
    · rw [dedupByPos, if_pos hmem] at h
      obtain ⟨hns, hf⟩ := ih seen it h
      refine ⟨hns, ?_⟩
      rw [List.find?_cons_of_neg, hf]
      simp only [decide_eq_true_eq]
      intro hc; exact hns (hc ▸ hmem)
    · rw [dedupByPos, if_neg hmem] at h
      rcases List.mem_cons.mp h with heq | hmem2
      · subst heq
        refine ⟨hmem, ?_⟩
        rw [List.find?_cons_of_pos]
        simp
      · obtain ⟨hns, hf⟩ := ih (a.2 :: seen) it hmem2
        have hne2 : ¬ a.2 = it.2 := by
          intro hc; exact hns (by rw [← hc]; exact List.mem_cons_self _ _)
        constructor
        · intro hc; exact hns (List.mem_cons_of_mem _ hc)
        · rw [List.find?_cons_of_neg, hf]
          simp only [decide_eq_true_eq]
          exact hne2

theorem dedupByPos_nodup :
    ∀ (l : List (String × ℚ)) (seen : List ℚ),
      ((dedupByPos seen l).map Prod.snd).Nodup := by
  intro l
  induction l with
  | nil => intro seen; simp [dedupByPos]
  | cons a t ih =>
    intro seen
    by_cases hmem : a.2 ∈ seen
    · rw [dedupByPos, if_pos hmem]; exact ih seen
    · rw [dedupByPos, if_neg hmem]
      simp only [List.map_cons, List.nodup_cons]
      refine ⟨?_, ih (a.2 :: seen)⟩
      intro hc
      obtain ⟨it, hit, heq⟩ := List.mem_map.mp hc
      exact (dedupByPos_mem_spec t (a.2 :: seen) it hit).1
        (by rw [heq]; exact List.mem_cons_self _ _)

theorem dedupByPos_covers :
    ∀ (l : List (String × ℚ)) (seen : List ℚ) (q : String × ℚ),
      q ∈ l → q.2 ∈ seen ∨ ∃ it ∈ dedupByPos seen l, it.2 = q.2 := by
  intro l
  induction l with
  | nil => intro seen q h; simp at h
  | cons a t ih =>
    intro seen q h
    by_cases hmem : a.2 ∈ seen
    · rw [dedupByPos, if_pos hmem]
      rcases List.mem_cons.mp h with heq | h2
      · subst heq; exact .inl hmem
      · exact ih seen q h2
    · rw [dedupByPos, if_neg hmem]
      rcases List.mem_cons.mp h with heq | h2
      · exact .inr ⟨a, List.mem_cons_self _ _, (congrArg Prod.snd heq).symm⟩
      · rcases ih (a.2 :: seen) q h2 with hin | ⟨it, hit, hiteq⟩
        · rcases List.mem_cons.mp hin with heq2 | hin2
          · exact .inr ⟨a, List.mem_cons_self _ _, heq2.symm⟩
          · exact .inl hin2
        · exact .inr ⟨it, List.mem_cons_of_mem _ hit, hiteq⟩

/-- C4 counterexample: merging an internal list with an intersection list that
repeats the same edge identifier at a different offset keeps both entries, so
the merged list does not contain each edge identifier at most once. -/
theorem c4_counterexample :
    mergeInternalEdgestarts [("a", 1)] [("a", 2)] = [("a", 1), ("a", 2)] ∧
    ¬ ((mergeInternalEdgestarts [("a", 1)] [("a", 2)]).map Prod.fst).Nodup := by
  exact ⟨by rfl, by decide⟩

/-- C4 (amended): the merge of the internal and intersection edge-start lists
removes duplicates keyed by the START POSITION (not the edge identifier),
keeping the first occurrence of each position: the merged list has pairwise
distinct positions, is a sublist of the concatenation, each kept entry is the
first entry of the concatenation carrying its position, and every position of
the concatenation is represented. -/
theorem mergeInternal_dedup_by_position
    (internal intersection : List (String × ℚ)) :
    ((mergeInternalEdgestarts internal intersection).map Prod.snd).Nodup ∧
    (mergeInternalEdgestarts internal intersection).Sublist
      (internal ++ intersection) ∧
    (∀ it ∈ mergeInternalEdgestarts internal intersection,
      (internal ++ intersection).find? (fun q => decide (q.2 = it.2)) =
        some it) ∧
    (∀ q ∈ internal ++ intersection,
      ∃ it ∈ mergeInternalEdgestarts internal intersection, it.2 = q.2) := by
  refine ⟨dedupByPos_nodup _ _, dedupByPos_sublist _ _, ?_, ?_⟩
  · intro it hit
    exact (dedupByPos_mem_spec _ _ it hit).2
  · intro q hq
    rcases dedupByPos_covers _ [] q hq with h | h
    · simp at h
    · exact h

/-- C4 witness: the amended statement applied to concrete lists. -/
theorem c4_witness :
    ((mergeInternalEdgestarts [("a", 1), ("b", 1)] [("c", 2)]).map
      Prod.snd).Nodup ∧
    ([("a", (1 : ℚ)), ("b", 1)] ++ [("c", 2)]).find?
      (fun q => decide (q.2 = 2)) = some ("c", 2) := by
  refine ⟨(mergeInternal_dedup_by_position [("a", 1), ("b", 1)] [("c", 2)]).1, ?_⟩
  exact (mergeInternal_dedup_by_position [("a", 1), ("b", 1)] [("c", 2)]).2.2.1
    ("c", 2) (by decide)

/-- C10 counterexample: with `bunching = 0` in the config and a kwargs override
of `-5`, `_get_start_pos_util` uses the NEGATIVE value `-5` as the bunching for
the placement computation (the clamp runs before the override is applied). -/
theorem c10_counterexample :
    c10Sc.getStartPosUtil c10Cfg 1 kwNeg = .ok (0, 0, -5, 1, 100, ["a"]) ∧
    (-5 : ℚ) < 0 := by
  exact ⟨by with_unfolding_all rfl, by norm_num⟩

/-- C10 (amended): when no kwargs override for `bunching` is supplied, the
bunching value returned by `_get_start_pos_util` (and hence used by the
placement computation) is never negative: a negative config value is clamped to
`0` with a warning.  A kwargs override bypasses the clamp. -/
theorem util_bunching_nonneg (sc : Scenario) (cfg : InitialConfig) (nv : ℤ)
    (kw : Kwargs) (t : ℚ × ℚ × ℚ × ℤ × ℚ × List String)
    (hkw : kw.bunching = none)
    (h : sc.getStartPosUtil cfg nv kw = .ok t) :
    0 ≤ t.2.2.1 := by
  unfold Scenario.getStartPosUtil at h
  split at h
  · cases h
  · split at h
    · cases h
    · cases h
      show 0 ≤ resolvedBunching cfg kw
      rw [resolvedBunching, hkw]
      show 0 ≤ (if cfg.bunching < 0 then (0 : ℚ) else cfg.bunching)
      split
      · norm_num
      · next hb => exact not_lt.mp hb

/-- C10 witness: the amended statement applied to a config with
`bunching = -3` and no override. -/
theorem c10_witness : (0 : ℚ) ≤ ((0 : ℚ), (0 : ℚ), (0 : ℚ), (1 : ℤ),
    (95 : ℚ), ["a"]).2.2.1 :=
  util_bunching_nonneg c10Sc c10CfgNeg 1 kw0 (0, 0, 0, 1, 95, ["a"]) rfl
    (by with_unfolding_all rfl)

/-- C3 counterexample: `get_x` on an identifier that is absent from the
coordinate tables, non-empty and not `":"`-prefixed raises `KeyError`
(modelled by `none`) instead of returning the sentinel `-1001`. -/
theorem c3_counterexample : c3Sc.get_x "ghost" 0 = none := by rfl

/-- C3 (amended): for an identifier absent from the edge/coordinate tables,
`edge_length`, `speed_limit`, `num_lanes`, `next_edge` and `prev_edge` return
their sentinel values without raising; `get_x` raises `KeyError` when the
identifier is non-empty and not `":"`-prefixed. -/
theorem queries_sentinel (sc : Scenario) (id : String) (lane : ℤ) (pos : ℚ)
    (h1 : sc.edges.lookup id = none)
    (h2 : sc.conn_next.lookup id = none)
    (h3 : sc.conn_prev.lookup id = none)
    (h4 : dlookup sc.total_edgestarts id = none)
    (h5 : ¬ id.length = 0)
    (h6 : ¬ id.take 1 = ":") :
    sc.edge_length id = -1001 ∧ sc.speed_limit id = -1001 ∧
    sc.num_lanes id = -1001 ∧ sc.next_edge id lane = [] ∧
    sc.prev_edge id lane = [] ∧ sc.get_x id pos = none := by
  refine ⟨?_, ?_, ?_, ?_, ?_, ?_⟩ <;>
    simp [Scenario.edge_length, Scenario.speed_limit, Scenario.num_lanes,
      Scenario.next_edge, Scenario.prev_edge, Scenario.get_x, h1, h2, h3, h4,
      h5, h6]

/-- C3 witness: the amended statement at a concrete scenario and identifier. -/
theorem c3_witness :
    c3Sc.edge_length "ghost" = -1001 ∧ c3Sc.speed_limit "ghost" = -1001 ∧
    c3Sc.num_lanes "ghost" = -1001 ∧ c3Sc.next_edge "ghost" 0 = [] ∧
    c3Sc.prev_edge "ghost" 0 = [] ∧ c3Sc.get_x "ghost" 0 = none :=
  queries_sentinel c3Sc "ghost" 0 0 (by rfl) (by rfl) (by rfl) (by rfl)
    (by decide) (by decide)

/-- C1: for any position `x` covered by some edge-start entry (in particular
any `x` in `[0, total_length)` when the frame starts at `0`), translating
`x` to `(edge, offset)` with `get_edge` and back with `get_x` returns exactly
`x`; the dictionary-consistency hypotheses hold for the tables built by
`__init__` (each listed edge has a non-empty name and its dictionary entry
carries its listed start). -/
theorem get_edge_get_x_roundtrip (sc : Scenario) (x : ℚ)
    (hex : ∃ p ∈ sc.total_edgestarts, p.2 ≤ x)
    (hlen : ∀ p ∈ sc.total_edgestarts, ¬ p.1.length = 0)
    (hdict : ∀ p ∈ sc.total_edgestarts,
      (p.1.take 1 = ":" → dlookup sc.internal_edgestarts p.1 = some p.2) ∧
      (¬ p.1.take 1 = ":" → dlookup sc.total_edgestarts p.1 = some p.2)) :
    (sc.get_edge x).bind (fun q => sc.get_x q.1 q.2) = some x := by
  obtain ⟨p0, hp0, hle0⟩ := hex
  have hfind : ∃ p,
      sc.total_edgestarts.reverse.find? (fun p => decide (p.2 ≤ x)) = some p := by
    cases hf : sc.total_edgestarts.reverse.find? (fun p => decide (p.2 ≤ x)) with
    | some p => exact ⟨p, rfl⟩
    | none =>
      exfalso
      have := List.find?_eq_none.mp hf p0 (List.mem_reverse.mpr hp0)
      simp only [decide_eq_true_eq] at this
      exact this hle0
  obtain ⟨p, hp⟩ := hfind
  have hmem : p ∈ sc.total_edgestarts :=
    List.mem_reverse.mp (List.mem_of_find?_eq_some hp)
  have hl := hlen p hmem
  have hx : sc.get_x p.1 (x - p.2) = some x := by
    by_cases hcolon : p.1.take 1 = ":"
    · have hd := (hdict p hmem).1 hcolon
      simp [Scenario.get_x, hl, hcolon, hd]
    · have hd := (hdict p hmem).2 hcolon
      simp [Scenario.get_x, hl, hcolon, hd]
  simp only [Scenario.get_edge]
  rw [hp]
  exact hx

/-- C1 witness: the round-trip at `x = 12` on a two-edge frame. -/
theorem c1_witness :
    (c1Sc.get_edge 12).bind (fun q => c1Sc.get_x q.1 q.2) = some 12 :=
  get_edge_get_x_roundtrip c1Sc 12 (by decide) (by decide) (by decide)

/-- C6: `_get_start_pos_util` raises the fatal capacity error exactly when
`vehicle_count × (min_gap + VEHICLE_LENGTH)` strictly exceeds the
distributable length minus `lanes_distribution × bunching`; otherwise it
returns the non-negative available length given by that formula (all values as
resolved by the function itself: `min_gap` clamped at `0`, `bunching`
clamped/overridden, `lanes_distribution` clamped into range). -/
theorem util_capacity_check (sc : Scenario) (cfg : InitialConfig) (nv : ℤ)
    (kw : Kwargs) (max_lane : ℤ)
    (hmax : maxLaneOpt sc cfg.edges_distribution = some max_lane) :
    (sc.getStartPosUtil cfg nv kw = .error errSpace ↔
      distributionLength sc cfg.edges_distribution (resolvedMinGap cfg)
          (lanesDistClamped cfg max_lane)
        - (lanesDistClamped cfg max_lane : ℚ) * resolvedBunching cfg kw
        < (nv : ℚ) * (resolvedMinGap cfg + VEHICLE_LENGTH)) ∧
    (∀ t, sc.getStartPosUtil cfg nv kw = .ok t →
      t.2.2.2.2.1 =
        distributionLength sc cfg.edges_distribution (resolvedMinGap cfg)
            (lanesDistClamped cfg max_lane)
          - (lanesDistClamped cfg max_lane : ℚ) * resolvedBunching cfg kw
          - (nv : ℚ) * (resolvedMinGap cfg + VEHICLE_LENGTH) ∧
      0 ≤ t.2.2.2.2.1) := by
  have hresult : sc.getStartPosUtil cfg nv kw =
      if distributionLength sc cfg.edges_distribution (resolvedMinGap cfg)
            (lanesDistClamped cfg max_lane)
          - (lanesDistClamped cfg max_lane : ℚ) * resolvedBunching cfg kw
          - (nv : ℚ) * (resolvedMinGap cfg + VEHICLE_LENGTH) < 0 then
        .error errSpace
      else
        .ok (resolvedX0 cfg kw, resolvedMinGap cfg, resolvedBunching cfg kw,
          lanesDistClamped cfg max_lane,
          distributionLength sc cfg.edges_distribution (resolvedMinGap cfg)
              (lanesDistClamped cfg max_lane)
            - (lanesDistClamped cfg max_lane : ℚ) * resolvedBunching cfg kw
            - (nv : ℚ) * (resolvedMinGap cfg + VEHICLE_LENGTH),
          availableEdges sc cfg.edges_distribution (resolvedMinGap cfg)) := by
    unfold Scenario.getStartPosUtil
    rw [hmax]
  rw [hresult]
  by_cases hc :
      distributionLength sc cfg.edges_distribution (resolvedMinGap cfg)
          (lanesDistClamped cfg max_lane)
        - (lanesDistClamped cfg max_lane : ℚ) * resolvedBunching cfg kw
        - (nv : ℚ) * (resolvedMinGap cfg + VEHICLE_LENGTH) < 0
  · rw [if_pos hc]
    refine ⟨⟨fun _ => by linarith, fun _ => rfl⟩, ?_⟩
    intro t ht
    exact Except.noConfusion ht
  · rw [if_neg hc]
    refine ⟨⟨fun hcontra => Except.noConfusion hcontra, fun hlt => ?_⟩, ?_⟩
    · exact absurd (by linarith) hc
    · intro t ht
      cases ht
      exact ⟨rfl, not_lt.mp hc⟩

/-- C6 witness: the capacity error fires for 1000 vehicles on a 100 m edge. -/
theorem c6_witness : c10Sc.getStartPosUtil c10Cfg 1000 kw0 = .error errSpace :=
  (util_capacity_check c10Sc c10Cfg 1000 kw0 1 (by with_unfolding_all rfl)).1.mpr
    (by with_unfolding_all decide)

/-- C2 (amended): under the uniform strategy, a weighted (mapping-form)
`edges_distribution` whose per-key counts do not sum to the supplied vehicle
count makes `gen_even_start_pos` fail with the assertion error, and no
placements are returned.  (The random strategy performs no such check: its
assertion is commented out in the source.) -/
theorem gen_even_mismatch_fatal (sc : Scenario) (fuel : ℕ)
    (cfg : InitialConfig) (nv : ℤ) (kw : Kwargs) (perturbs : ℕ → ℚ)
    (m : List (String × EdgeDistVal)) (s : ℤ)
    (hm : cfg.edges_distribution = .dct m)
    (hs : distSum m = .ok s) (hne : nv ≠ s) :
    gen_even_start_pos sc fuel cfg nv kw perturbs = .error errAssert := by
  unfold gen_even_start_pos
  rw [hm]
  show (match distSum m with
    | .error e => (.error e : Except String
        (List (String × ℚ) × List ℤ × InitialConfig))
    | .ok s => if nv = s then genEvenDictLoop sc fuel kw perturbs m cfg [] []
      else .error errAssert) = .error errAssert
  rw [hs]
  show (if nv = s then genEvenDictLoop sc fuel kw perturbs m cfg [] []
    else .error errAssert) = .error errAssert
  rw [if_neg hne]

/-- C2 witness: the uniform generator rejects a weighted distribution summing
to 3 when 5 vehicles are requested. -/
theorem c2_witness :
    gen_even_start_pos c2Sc 10 c2Cfg 5 kw0 pert0 = .error errAssert :=
  gen_even_mismatch_fatal c2Sc 10 c2Cfg 5 kw0 pert0 [("a", .count 3)] 3 rfl
    rfl (by decide)

/-- C2 counterexample: the RANDOM strategy does not validate the weighted
distribution: with per-key counts summing to 3 and a requested vehicle count
of 5, `gen_random_start_pos` succeeds and returns three placements instead of
failing with a fatal configuration error. -/
theorem c2_counterexample :
    distSum [("a", EdgeDistVal.count 3)] = .ok 3 ∧ (5 : ℤ) ≠ 3 ∧
    gen_random_start_pos c2Sc 10 c2Cfg 5 kw0 pert0 =
      .ok ([("a", 7), ("a", 14), ("a", 21)], [0, 0, 0],
        { c2Cfg with edges_distribution := .lst ["a"] }) := by
  exact ⟨by rfl, by decide, by with_unfolding_all rfl⟩

theorem genEvenCore_cfg_eq (sc : Scenario) (fuel : ℕ) (cfg : InitialConfig)
    (nv : ℤ) (kw : Kwargs) (perturbs : ℕ → ℚ) (ps : List (String × ℚ))
    (ls : List ℤ) (cfg2 : InitialConfig)
    (h : genEvenCore sc fuel cfg nv kw perturbs = .ok (ps, ls, cfg2)) :
    cfg2 = cfg := by
  unfold genEvenCore at h
  split at h
  · exact Except.noConfusion h
  · split at h
    · injection h with h2
      exact (congrArg (fun q => q.2.2) h2).symm
    · split at h
      · exact Except.noConfusion h
      · split at h
        · split at h
          · exact Except.noConfusion h
          · injection h with h2
            exact (congrArg (fun q => q.2.2) h2).symm
        · injection h with h2
          exact (congrArg (fun q => q.2.2) h2).symm

theorem genRandomCore_cfg_eq (sc : Scenario) (fuel : ℕ) (cfg : InitialConfig)
    (nv : ℤ) (kw : Kwargs) (rand : ℕ → ℚ) (ps : List (String × ℚ))
    (ls : List ℤ) (cfg2 : InitialConfig)
    (h : genRandomCore sc fuel cfg nv kw rand = .ok (ps, ls, cfg2)) :
    cfg2 = cfg := by
  unfold genRandomCore at h
  split at h
  · exact Except.noConfusion h
  · split at h
    · exact Except.noConfusion h
    · injection h with h2
      exact (congrArg (fun q => q.2.2) h2).symm

theorem genEvenDictLoop_last_key (sc : Scenario) (fuel : ℕ) (kw : Kwargs)
    (perturbs : ℕ → ℚ) :
    ∀ (m : List (String × EdgeDistVal)) (cfg : InitialConfig)
      (ps : List (String × ℚ)) (ls : List ℤ) (ps2 : List (String × ℚ))
      (ls2 : List ℤ) (cfg2 : InitialConfig) (hne : m ≠ []),
      genEvenDictLoop sc fuel kw perturbs m cfg ps ls = .ok (ps2, ls2, cfg2) →
      cfg2 = { cfg with edges_distribution := .lst [(m.getLast hne).1] } := by
  intro m
  induction m with
  | nil => intro cfg ps ls ps2 ls2 cfg2 hne h; exact absurd rfl hne
  | cons kv rest ih =>
    intro cfg ps ls ps2 ls2 cfg2 hne h
    obtain ⟨key, v⟩ := kv
    rw [genEvenDictLoop] at h
    split at h
    · exact Except.noConfusion h
    · next p l cfg3 heq =>
      have hcfg3 : cfg3 = { cfg with edges_distribution := .lst [key] } :=
        genEvenCore_cfg_eq sc fuel _ _ kw perturbs p l cfg3 heq
      by_cases hr : rest = []
      · subst hr
        rw [genEvenDictLoop] at h
        injection h with h2
        have : cfg2 = cfg3 := (congrArg (fun q => q.2.2) h2).symm
        rw [this, hcfg3]
        rfl
      · have := ih cfg3 (ps ++ p) (ls ++ l) ps2 ls2 cfg2 hr h
        rw [this, hcfg3]
        simp [List.getLast_cons hr]

theorem genRandomDictLoop_last_key (sc : Scenario) (fuel : ℕ) (kw : Kwargs)
    (rand : ℕ → ℚ) :
    ∀ (m : List (String × EdgeDistVal)) (cfg : InitialConfig)
      (ps : List (String × ℚ)) (ls : List ℤ) (ps2 : List (String × ℚ))
      (ls2 : List ℤ) (cfg2 : InitialConfig) (hne : m ≠ []),
      genRandomDictLoop sc fuel kw rand m cfg ps ls = .ok (ps2, ls2, cfg2) →
      cfg2 = { cfg with edges_distribution := .lst [(m.getLast hne).1] } := by
  intro m
  induction m with
  | nil => intro cfg ps ls ps2 ls2 cfg2 hne h; exact absurd rfl hne
  | cons kv rest ih =>
    intro cfg ps ls ps2 ls2 cfg2 hne h
    obtain ⟨key, v⟩ := kv
    rw [genRandomDictLoop] at h
    split at h
    · exact Except.noConfusion h
    · next p l cfg3 heq =>
      have hcfg3 : cfg3 = { cfg with edges_distribution := .lst [key] } :=
        genRandomCore_cfg_eq sc fuel _ _ kw rand p l cfg3 heq
      by_cases hr : rest = []
      · subst hr
        rw [genRandomDictLoop] at h
        injection h with h2
        have : cfg2 = cfg3 := (congrArg (fun q => q.2.2) h2).symm
        rw [this, hcfg3]
        rfl
      · have := ih cfg3 (ps ++ p) (ls ++ l) ps2 ls2 cfg2 hr h
        rw [this, hcfg3]
        simp [List.getLast_cons hr]

/-- C5 (amended): under both the uniform and the random strategies, expanding
a mapping-form `edges_distribution` reads counts from a deep-copied local, but
the caller's `initial_config.edges_distribution` is reassigned on every key
and is left equal to the single-key list `[last key]` after the call — it does
NOT equal the dictionary that was passed in. -/
theorem gen_dict_leaves_last_key (sc : Scenario) (fuel : ℕ)
    (cfg : InitialConfig) (nv : ℤ) (kw : Kwargs) (perturbs rand : ℕ → ℚ)
    (m : List (String × EdgeDistVal)) (hm : cfg.edges_distribution = .dct m)
    (hne : m ≠ []) :
    (∀ ps ls cfg2,
      gen_even_start_pos sc fuel cfg nv kw perturbs = .ok (ps, ls, cfg2) →
      cfg2 = { cfg with edges_distribution := .lst [(m.getLast hne).1] }) ∧
    (∀ ps ls cfg2,
      gen_random_start_pos sc fuel cfg nv kw rand = .ok (ps, ls, cfg2) →
      cfg2 = { cfg with edges_distribution := .lst [(m.getLast hne).1] }) := by
  constructor
  · intro ps ls cfg2 h
    unfold gen_even_start_pos at h
    rw [hm] at h
    have h2 : (match distSum m with
        | Except.error e => (Except.error e : Except String
            (List (String × ℚ) × List ℤ × InitialConfig))
        | Except.ok s =>
          if nv = s then genEvenDictLoop sc fuel kw perturbs m cfg [] []
          else .error errAssert) = .ok (ps, ls, cfg2) := h
    split at h2
    · exact Except.noConfusion h2
    · split at h2
      · exact genEvenDictLoop_last_key sc fuel kw perturbs m cfg [] [] ps ls
          cfg2 hne h2
      · exact Except.noConfusion h2
  · intro ps ls cfg2 h
    unfold gen_random_start_pos at h
    rw [hm] at h
    have h2 : genRandomDictLoop sc fuel kw rand m cfg [] [] =
        .ok (ps, ls, cfg2) := h
    exact genRandomDictLoop_last_key sc fuel kw rand m cfg [] [] ps ls cfg2
      hne h2

/-- C5 counterexample: after the uniform generator expands the two-key mapping
distribution, the caller's `initial_config.edges_distribution` equals the
single-key list `["b"]`, not the dictionary that was passed in. -/
theorem c5_counterexample :
    gen_even_start_pos c5Sc 10 c5Cfg 2 kw0 pert0 =
      .ok ([("a", 0), ("b", 0)], [0, 0],
        { c5Cfg with edges_distribution := .lst ["b"] }) ∧
    EdgesDistribution.lst ["b"] ≠ c5Cfg.edges_distribution := by
  exact ⟨by with_unfolding_all rfl, by decide⟩

/-- C5 witness: the amended statement applied to the concrete two-key run. -/
theorem c5_witness :
    ({ x0 := 0, min_gap := 0, bunching := 0, lanes_distribution := 1,
       perturbation := 0,
       edges_distribution := .lst ["b"] } : InitialConfig) =
      { c5Cfg with edges_distribution := .lst ["b"] } :=
  (gen_dict_leaves_last_key c5Sc 10 c5Cfg 2 kw0 pert0 pert0
      [("a", .count 1), ("b", .count 1)] rfl (by decide)).1
    [("a", 0), ("b", 0)] [0, 0] _ (by with_unfolding_all rfl)

theorem list_get?_mem {α : Type} : ∀ (l : List α) (i : ℕ) (a : α),
    l.get? i = some a → a ∈ l := by
  intro l
  induction l with
  | nil => intro i a h; cases i <;> exact Option.noConfusion h
  | cons b t ih =>
    intro i a h
    cases i with
    | zero =>
      injection h with h2
      rw [h2]
      exact List.mem_cons_self _ _
    | succ j => exact List.mem_cons_of_mem _ (ih j a h)

theorem list_get?_lt {α : Type} : ∀ (l : List α) (i : ℕ) (a : α),
    l.get? i = some a → i < l.length := by
  intro l
  induction l with
  | nil => intro i a h; cases i <;> exact Option.noConfusion h
  | cons b t ih =>
    intro i a h
    cases i with
    | zero => simp
    | succ j => exact Nat.succ_lt_succ (ih j a h)

theorem list_mem_get? {α : Type} : ∀ (l : List α) (a : α),
    a ∈ l → ∃ i, l.get? i = some a := by
  intro l
  induction l with
  | nil => intro a h; simp at h
  | cons b t ih =>
    intro a h
    rcases List.mem_cons.mp h with heq | hmem
    · exact ⟨0, by rw [heq]; rfl⟩
    · obtain ⟨i, hi⟩ := ih a hmem
      exact ⟨i + 1, hi⟩

theorem list_get?_set_self {α : Type} : ∀ (l : List α) (i : ℕ) (a : α),
    i < l.length → (l.set i a).get? i = some a := by
  intro l
  induction l with
  | nil => intro i a h; simp at h
  | cons b t ih =>
    intro i a h
    cases i with
    | zero => rfl
    | succ j => exact ih j a (Nat.lt_of_succ_lt_succ h)

theorem list_get?_set_ne {α : Type} : ∀ (l : List α) (i j : ℕ) (a : α),
    i ≠ j → (l.set i a).get? j = l.get? j := by
  intro l
  induction l with
  | nil => intro i j a h; cases i <;> rfl
  | cons b t ih =>
    intro i j a h
    cases i with
    | zero =>
      cases j with
      | zero => exact absurd rfl h
      | succ k => rfl
    | succ i2 =>
      cases j with
      | zero => rfl
      | succ k => exact ih i2 k a (fun hc => h (by rw [hc]))

theorem list_mem_set {α : Type} : ∀ (l : List α) (i : ℕ) (a x : α),
    x ∈ l.set i a → x ∈ l ∨ x = a := by
  intro l
  induction l with
  | nil => intro i a x h; simp at h
  | cons b t ih =>
    intro i a x h
    cases i with
    | zero =>
      rcases List.mem_cons.mp h with heq | hmem
      · exact .inr heq
      · exact .inl (List.mem_cons_of_mem _ hmem)
    | succ j =>
      rcases List.mem_cons.mp h with heq | hmem
      · exact .inl (by rw [heq]; exact List.mem_cons_self _ _)
      · rcases ih j a x hmem with h2 | h2
        · exact .inl (List.mem_cons_of_mem _ h2)
        · exact .inr h2

theorem evenAdjust_edge (sc : Scenario) (flag : Bool) (nv cc : ℤ)
    (inc x2 : ℚ) (pos2 : String × ℚ) :
    (evenAdjust sc flag nv cc inc x2 pos2).2.1.1 = pos2.1 := by
  unfold evenAdjust
  split <;> rfl

theorem findAvailable_mem (sc : Scenario) (avail : List String) :
    ∀ (fuel : ℕ) (x : ℚ) (pos : String × ℚ) (x2 : ℚ) (pos2 : String × ℚ),
      findAvailable sc avail fuel x pos = .ok (x2, pos2) → pos2.1 ∈ avail := by
  intro fuel
  induction fuel with
  | zero =>
    intro x pos x2 pos2 h
    rw [findAvailable] at h
    split at h
    · next hmem =>
      injection h with h2
      have h3 : pos = pos2 := congrArg Prod.snd h2
      rw [← h3]
      exact hmem
    · exact Except.noConfusion h
  | succ fuel ih =>
    intro x pos x2 pos2 h
    rw [findAvailable] at h
    split at h
    · next hmem =>
      injection h with h2
      have h3 : pos = pos2 := congrArg Prod.snd h2
      rw [← h3]
      exact hmem
    · split at h
      · exact Except.noConfusion h
      · exact ih _ _ _ _ h

theorem evenLoop_mem (sc : Scenario) (avail : List String) (lanes_distr : ℤ)
    (min_gap : ℚ) (nv : ℤ) (flag : Bool) :
    ∀ (fuel : ℕ) (x : ℚ) (cc : ℤ) (inc : ℚ) (ps : List (String × ℚ))
      (ls : List ℤ) (P : List (String × ℚ)) (L : List ℤ),
      (∀ q ∈ ps, q.1 ∈ avail) →
      evenLoop sc avail lanes_distr min_gap nv flag fuel x cc inc ps ls =
        .ok (P, L) →
      ∀ q ∈ P, q.1 ∈ avail := by
  intro fuel
  induction fuel with
  | zero =>
    intro x cc inc ps ls P L hps h
    rw [evenLoop] at h
    split at h
    · exact Except.noConfusion h
    · injection h with h2
      have h3 : ps = P := congrArg Prod.fst h2
      intro q hq
      rw [← h3] at hq
      exact hps q hq
  | succ fuel ih =>
    intro x cc inc ps ls P L hps h
    rw [evenLoop] at h
    split at h
    · split at h
      · exact Except.noConfusion h
      · next pos hep =>
        split at h
        · exact Except.noConfusion h
        · next x1 pos1 hskip =>
          split at h
          · exact Except.noConfusion h
          · next x2 pos2 hfind =>
            split at h
            · next x3 pos3 inc3 hadj =>
              refine ih _ _ _ _ _ _ _ ?_ h
              intro q hq
              rcases List.mem_append.mp hq with hq2 | hq2
              · exact hps q hq2
              · have : q = pos3 := List.eq_of_mem_replicate hq2
                rw [this]
                have he : pos3.1 = pos2.1 := by
                  rw [← congrArg (fun z => z.2.1.1) hadj]
                  exact evenAdjust_edge sc flag nv cc inc x2 pos2
                rw [he]
                exact findAvailable_mem sc avail fuel x1 pos1 x2 pos2 hfind
    · injection h with h2
      have h3 : ps = P := congrArg Prod.fst h2
      intro q hq
      rw [← h3] at hq
      exact hps q hq

theorem evenLoop_length (sc : Scenario) (avail : List String)
    (lanes_distr : ℤ) (min_gap : ℚ) (nv : ℤ) (flag : Bool) :
    ∀ (fuel : ℕ) (x : ℚ) (cc : ℤ) (inc : ℚ) (ps : List (String × ℚ))
      (ls : List ℤ) (P : List (String × ℚ)) (L : List ℤ),
      evenLoop sc avail lanes_distr min_gap nv flag fuel x cc inc ps ls =
        .ok (P, L) →
      P.length = ps.length + (nv - cc).toNat := by
  intro fuel
  induction fuel with
  | zero =>
    intro x cc inc ps ls P L h
    rw [evenLoop] at h
    split at h
    · exact Except.noConfusion h
    · next hcc =>
      injection h with h2
      have h3 : ps = P := congrArg Prod.fst h2
      rw [← h3]
      omega
  | succ fuel ih =>
    intro x cc inc ps ls P L h
    rw [evenLoop] at h
    split at h
    · next hcc =>
      split at h
      · exact Except.noConfusion h
      · split at h
        · exact Except.noConfusion h
        · split at h
          · exact Except.noConfusion h
          · next x2 pos2 hfind =>
            split at h
            · next x3 pos3 inc3 hadj =>
              have hlen := ih _ _ _ _ _ _ _ h
              rw [hlen]
              simp only [List.length_append, List.length_replicate]
              have hk : (min (min (sc.num_lanes pos3.1) lanes_distr)
                  (nv - cc)) ≤ nv - cc := min_le_right _ _
              unfold lanesPlaced
              omega
    · next hcc =>
      injection h with h2
      have h3 : ps = P := congrArg Prod.fst h2
      rw [← h3]
      omega

theorem perturbLoop_pres (sc : Scenario) (perturbs : ℕ → ℚ)
    (Pp : String → Prop) :
    ∀ (idxs : List ℕ) (ps ps2 : List (String × ℚ)),
      (∀ q ∈ ps, Pp q.1) →
      perturbLoop sc perturbs idxs ps = .ok ps2 →
      ∀ q ∈ ps2, Pp q.1 := by
  intro idxs
  induction idxs with
  | nil =>
    intro ps ps2 hP h
    injection h with h2
    rw [← h2]
    exact hP
  | cons i rest ih =>
    intro ps ps2 hP h
    rw [perturbLoop] at h
    split at h
    · exact Except.noConfusion h
    · next q hq =>
      refine ih _ _ ?_ h
      intro r hr
      rcases list_mem_set _ _ _ _ hr with hmem | heq
      · exact hP r hmem
      · rw [heq]
        exact hP q (list_get?_mem _ _ _ hq)

theorem perturbLoop_good (sc : Scenario) (perturbs : ℕ → ℚ) :
    ∀ (idxs : List ℕ) (ps ps2 : List (String × ℚ)),
      (∀ q ∈ ps, 0 ≤ sc.edge_length q.1) →
      (∀ (j : ℕ) (e : String) (p : ℚ), ps.get? j = some (e, p) →
        j ∈ idxs ∨ (0 ≤ p ∧ p ≤ sc.edge_length e)) →
      perturbLoop sc perturbs idxs ps = .ok ps2 →
      ∀ (j : ℕ) (e : String) (p : ℚ), ps2.get? j = some (e, p) →
        0 ≤ p ∧ p ≤ sc.edge_length e := by
  intro idxs
  induction idxs with
  | nil =>
    intro ps ps2 hlen hcov h j e p hj
    injection h with h2
    rw [← h2] at hj
    rcases hcov j e p hj with hin | hg
    · simp at hin
    · exact hg
  | cons i rest ih =>
    intro ps ps2 hlen hcov h j e p hj
    rw [perturbLoop] at h
    split at h
    · exact Except.noConfusion h
    · next q hq =>
      refine ih _ _ ?_ ?_ h j e p hj
      · intro r hr
        rcases list_mem_set _ _ _ _ hr with hmem | heq
        · exact hlen r hmem
        · rw [heq]
          exact hlen q (list_get?_mem _ _ _ hq)
      · intro j2 e2 p2 hj2
        by_cases hij : i = j2
        · subst hij
          rw [list_get?_set_self _ _ _ (list_get?_lt _ _ _ hq)] at hj2
          injection hj2 with h3
          right
          have he : q.1 = e2 := congrArg Prod.fst h3
          have hp : max 0 (min (sc.edge_length q.1) (q.2 + perturbs i)) = p2 :=
            congrArg Prod.snd h3
          rw [← he, ← hp]
          refine ⟨le_max_left 0 _, ?_⟩
          exact max_le (hlen q (list_get?_mem _ _ _ hq)) (min_le_left _ _)
        · rw [list_get?_set_ne _ _ _ _ hij] at hj2
          rcases hcov j2 e2 p2 hj2 with hin | hg
          · rcases List.mem_cons.mp hin with h4 | h4
            · exact absurd h4.symm hij
            · exact .inl h4
          · exact .inr hg

theorem util_ok_inversion (sc : Scenario) (cfg : InitialConfig) (nv : ℤ)
    (kw : Kwargs) (t : ℚ × ℚ × ℚ × ℤ × ℚ × List String)
    (h : sc.getStartPosUtil cfg nv kw = .ok t) :
    t.2.1 = resolvedMinGap cfg ∧
    t.2.2.2.2.2 =
      availableEdges sc cfg.edges_distribution (resolvedMinGap cfg) := by
  unfold Scenario.getStartPosUtil at h
  split at h
  · exact Except.noConfusion h
  · split at h
    · exact Except.noConfusion h
    · cases h
      exact ⟨rfl, rfl⟩

theorem availableEdges_spec (sc : Scenario) (dist : EdgesDistribution)
    (min_gap : ℚ) (e : String) (h : e ∈ availableEdges sc dist min_gap) :
    min_gap + VEHICLE_LENGTH < sc.edge_length e ∧ e ∈ distEdges sc dist := by
  unfold availableEdges at h
  have h2 := List.mem_filter.mp h
  refine ⟨?_, h2.1⟩
  have := h2.2
  simpa using this

theorem genEvenCore_mem_dist (sc : Scenario) (fuel : ℕ) (cfg : InitialConfig)
    (nv : ℤ) (kw : Kwargs) (perturbs : ℕ → ℚ) (ps : List (String × ℚ))
    (ls : List ℤ) (cfg2 : InitialConfig)
    (h : genEvenCore sc fuel cfg nv kw perturbs = .ok (ps, ls, cfg2)) :
    ∀ q ∈ ps, q.1 ∈ distEdges sc cfg.edges_distribution := by
  unfold genEvenCore at h
  split at h
  · exact Except.noConfusion h
  · next x0 g b ld al ae hu =>
    have hinv := util_ok_inversion sc cfg nv kw _ hu
    have hae : ae =
        availableEdges sc cfg.edges_distribution (resolvedMinGap cfg) :=
      hinv.2
    split at h
    · injection h with h2
      have h3 : ([] : List (String × ℚ)) = ps := congrArg (fun z => z.1) h2
      intro q hq
      rw [← h3] at hq
      simp at hq
    · split at h
      · exact Except.noConfusion h
      · next ps1 ls1 hloop =>
        have hmem1 : ∀ q ∈ ps1, q.1 ∈ ae :=
          evenLoop_mem sc ae ld g nv _ fuel x0 0 _ [] [] ps1 ls1
            (by intro q hq; simp at hq) hloop
        split at h
        · split at h
          · exact Except.noConfusion h
          · next ps2' hperturb =>
            injection h with h2
            have h3 : ps2' = ps := congrArg (fun z => z.1) h2
            rw [← h3]
            have hpres : ∀ q ∈ ps2', q.1 ∈ ae :=
              perturbLoop_pres sc perturbs (· ∈ ae) _ ps1 ps2' hmem1 hperturb
            intro q hq
            have h4 := hpres q hq
            rw [hae] at h4
            exact (availableEdges_spec sc _ _ _ h4).2
        · injection h with h2
          have h3 : ps1 = ps := congrArg (fun z => z.1) h2
          rw [← h3]
          intro q hq
          have h4 := hmem1 q hq
          rw [hae] at h4
          exact (availableEdges_spec sc _ _ _ h4).2

theorem genEvenCore_bounds (sc : Scenario) (fuel : ℕ) (cfg : InitialConfig)
    (nv : ℤ) (kw : Kwargs) (perturbs : ℕ → ℚ) (ps : List (String × ℚ))
    (ls : List ℤ) (cfg2 : InitialConfig)
    (hpert : 0 < cfg.perturbation)
    (h : genEvenCore sc fuel cfg nv kw perturbs = .ok (ps, ls, cfg2)) :
    ∀ q ∈ ps, 0 ≤ q.2 ∧ q.2 ≤ sc.edge_length q.1 := by
  unfold genEvenCore at h
  split at h
  · exact Except.noConfusion h
  · next x0 g b ld al ae hu =>
    have hinv := util_ok_inversion sc cfg nv kw _ hu
    have hae : ae =
        availableEdges sc cfg.edges_distribution (resolvedMinGap cfg) :=
      hinv.2
    split at h
    · injection h with h2
      have h3 : ([] : List (String × ℚ)) = ps := congrArg (fun z => z.1) h2
      intro q hq
      rw [← h3] at hq
      simp at hq
    · next hnv =>
      split at h
      · exact Except.noConfusion h
      · next ps1 ls1 hloop =>
        have hmem1 : ∀ q ∈ ps1, q.1 ∈ ae :=
          evenLoop_mem sc ae ld g nv _ fuel x0 0 _ [] [] ps1 ls1
            (by intro q hq; simp at hq) hloop
        have hlen0 : ∀ q ∈ ps1, 0 ≤ sc.edge_length q.1 := by
          intro q hq
          have hmemq := hmem1 q hq
          rw [hae] at hmemq
          have h4 := (availableEdges_spec sc _ _ _ hmemq).1
          have h5 : (0 : ℚ) ≤ resolvedMinGap cfg := by
            unfold resolvedMinGap
            exact le_max_left 0 _
          have hVL : (0 : ℚ) < VEHICLE_LENGTH := by norm_num [VEHICLE_LENGTH]
          linarith
        have hlen1 : ps1.length = nv.toNat := by
          have h4 := evenLoop_length sc ae ld g nv _ fuel x0 0 _ [] [] ps1 ls1
            hloop
          simpa using h4
        split at h
        · exact Except.noConfusion h
        · next ps2' hperturb =>
          injection h with h2
          have h3 : ps2' = ps := congrArg (fun z => z.1) h2
          rw [← h3]
          intro q hq
          obtain ⟨j, hj⟩ := list_mem_get? _ _ hq
          exact perturbLoop_good sc perturbs (List.range nv.toNat) ps1 ps2'
            hlen0
            (by
              intro j2 e2 p2 hj2
              left
              have h5 := list_get?_lt _ _ _ hj2
              rw [hlen1] at h5
              exact List.mem_range.mpr h5)
            hperturb j q.1 q.2 hj

theorem genEvenDictLoop_mem (sc : Scenario) (fuel : ℕ) (kw : Kwargs)
    (perturbs : ℕ → ℚ) (keys : List String) :
    ∀ (m : List (String × EdgeDistVal)) (cfg : InitialConfig)
      (ps : List (String × ℚ)) (ls : List ℤ) (ps2 : List (String × ℚ))
      (ls2 : List ℤ) (cfg2 : InitialConfig),
      (∀ kv ∈ m, kv.1 ∈ keys) →
      (∀ q ∈ ps, q.1 ∈ keys) →
      genEvenDictLoop sc fuel kw perturbs m cfg ps ls = .ok (ps2, ls2, cfg2) →
      ∀ q ∈ ps2, q.1 ∈ keys := by
  intro m
  induction m with
  | nil =>
    intro cfg ps ls ps2 ls2 cfg2 hkv hps h
    injection h with h2
    have h3 : ps = ps2 := congrArg (fun z => z.1) h2
    intro q hq
    rw [← h3] at hq
    exact hps q hq
  | cons kv rest ih =>
    intro cfg ps ls ps2 ls2 cfg2 hkv hps h
    obtain ⟨key, v⟩ := kv
    rw [genEvenDictLoop] at h
    split at h
    · exact Except.noConfusion h
    · next p l cfg3 heq =>
      refine ih cfg3 (ps ++ p) (ls ++ l) ps2 ls2 cfg2 ?_ ?_ h
      · intro kv2 hkv2
        exact hkv kv2 (List.mem_cons_of_mem _ hkv2)
      · intro q hq
        rcases List.mem_append.mp hq with h4 | h4
        · exact hps q h4
        · have hmem := genEvenCore_mem_dist sc fuel _ _ kw perturbs p l cfg3
            heq q h4
          have h5 : q.1 = key := by
            simpa [distEdges] using hmem
          rw [h5]
          exact hkv (key, v) (List.mem_cons_self _ _)

theorem genEvenDictLoop_bounds (sc : Scenario) (fuel : ℕ) (kw : Kwargs)
    (perturbs : ℕ → ℚ) :
    ∀ (m : List (String × EdgeDistVal)) (cfg : InitialConfig)
      (ps : List (String × ℚ)) (ls : List ℤ) (ps2 : List (String × ℚ))
      (ls2 : List ℤ) (cfg2 : InitialConfig),
      0 < cfg.perturbation →
      (∀ q ∈ ps, 0 ≤ q.2 ∧ q.2 ≤ sc.edge_length q.1) →
      genEvenDictLoop sc fuel kw perturbs m cfg ps ls = .ok (ps2, ls2, cfg2) →
      ∀ q ∈ ps2, 0 ≤ q.2 ∧ q.2 ≤ sc.edge_length q.1 := by
  intro m
  induction m with
  | nil =>
    intro cfg ps ls ps2 ls2 cfg2 hpert hps h
    injection h with h2
    have h3 : ps = ps2 := congrArg (fun z => z.1) h2
    intro q hq
    rw [← h3] at hq
    exact hps q hq
  | cons kv rest ih =>
    intro cfg ps ls ps2 ls2 cfg2 hpert hps h
    obtain ⟨key, v⟩ := kv
    rw [genEvenDictLoop] at h
    split at h
    · exact Except.noConfusion h
    · next p l cfg3 heq =>
      have hcfg3 : cfg3 = { cfg with edges_distribution := .lst [key] } :=
        genEvenCore_cfg_eq sc fuel _ _ kw perturbs p l cfg3 heq
      refine ih cfg3 (ps ++ p) (ls ++ l) ps2 ls2 cfg2 ?_ ?_ h
      · rw [hcfg3]
        exact hpert
      · intro q hq
        rcases List.mem_append.mp hq with h4 | h4
        · exact hps q h4
        · exact genEvenCore_bounds sc fuel _ _ kw perturbs p l cfg3
            (show 0 < ({ cfg with edges_distribution :=
              EdgesDistribution.lst [key] } : InitialConfig).perturbation
              from hpert) heq q h4

/-- C8: no placement produced by the uniform strategy lies on an
internal-junction edge (an identifier listed in the internal edge-start
table), provided no internal identifier is among the candidate edges of the
`edges_distribution` (which holds for `"all"`, since `get_edge_list` excludes
`":"`-prefixed identifiers, and for any well-formed explicit selection). -/
theorem gen_even_no_internal (sc : Scenario) (fuel : ℕ) (cfg : InitialConfig)
    (nv : ℤ) (kw : Kwargs) (perturbs : ℕ → ℚ) (ps : List (String × ℚ))
    (ls : List ℤ) (cfg2 : InitialConfig)
    (hint : ∀ q ∈ sc.internal_edgestarts,
      q.1 ∉ distEdges sc cfg.edges_distribution)
    (h : gen_even_start_pos sc fuel cfg nv kw perturbs = .ok (ps, ls, cfg2)) :
    ∀ p ∈ ps, ∀ q ∈ sc.internal_edgestarts, q.1 ≠ p.1 := by
  have hmem : ∀ p ∈ ps, p.1 ∈ distEdges sc cfg.edges_distribution := by
    unfold gen_even_start_pos at h
    cases hd : cfg.edges_distribution with
    | dct m =>
      rw [hd] at h
      have h2 : (match distSum m with
          | Except.error e => (Except.error e : Except String
              (List (String × ℚ) × List ℤ × InitialConfig))
          | Except.ok s =>
            if nv = s then genEvenDictLoop sc fuel kw perturbs m cfg [] []
            else .error errAssert) = .ok (ps, ls, cfg2) := h
      split at h2
      · exact Except.noConfusion h2
      · split at h2
        · intro p hp
          have h3 := genEvenDictLoop_mem sc fuel kw perturbs (m.map Prod.fst)
            m cfg [] [] ps ls cfg2
            (by intro kv hkv; exact List.mem_map_of_mem _ hkv)
            (by intro q hq; simp at hq) h2 p hp
          simpa [distEdges] using h3
        · exact Except.noConfusion h2
    | all =>
      rw [hd] at h
      have h2 : genEvenCore sc fuel cfg nv kw perturbs = .ok (ps, ls, cfg2) :=
        h
      intro p hp
      have h3 := genEvenCore_mem_dist sc fuel cfg nv kw perturbs ps ls cfg2
        h2 p hp
      rw [hd] at h3
      exact h3
    | lst l =>
      rw [hd] at h
      have h2 : genEvenCore sc fuel cfg nv kw perturbs = .ok (ps, ls, cfg2) :=
        h
      intro p hp
      have h3 := genEvenCore_mem_dist sc fuel cfg nv kw perturbs ps ls cfg2
        h2 p hp
      rw [hd] at h3
      exact h3
  intro p hp q hq hqe
  apply hint q hq
  rw [hqe]
  exact hmem p hp

/-- C8 witness: the non-internal property at a concrete run on a network with
an internal junction `":j"`. -/
theorem c8_witness : (":j", (80 : ℚ)).1 ≠ ("a", (0 : ℚ)).1 :=
  gen_even_no_internal c8Sc 5 c8Cfg 2 kw0 pert0 [("a", 0), ("a", 50)] [0, 0]
    c8Cfg (by decide) (by with_unfolding_all rfl) ("a", 0) (by decide)
    (":j", 80) (by decide)

/-- C9: every vehicle placed by the uniform strategy with `perturbation > 0`
ends with an offset inside `[0, edge_length]` of its assigned edge, whatever
the sampled Gaussian magnitudes are. -/
theorem gen_even_perturb_in_range (sc : Scenario) (fuel : ℕ)
    (cfg : InitialConfig) (nv : ℤ) (kw : Kwargs) (perturbs : ℕ → ℚ)
    (ps : List (String × ℚ)) (ls : List ℤ) (cfg2 : InitialConfig)
    (hpert : 0 < cfg.perturbation)
    (h : gen_even_start_pos sc fuel cfg nv kw perturbs = .ok (ps, ls, cfg2)) :
    ∀ p ∈ ps, 0 ≤ p.2 ∧ p.2 ≤ sc.edge_length p.1 := by
  unfold gen_even_start_pos at h
  cases hd : cfg.edges_distribution with
  | dct m =>
    rw [hd] at h
    have h2 : (match distSum m with
        | Except.error e => (Except.error e : Except String
            (List (String × ℚ) × List ℤ × InitialConfig))
        | Except.ok s =>
          if nv = s then genEvenDictLoop sc fuel kw perturbs m cfg [] []
          else .error errAssert) = .ok (ps, ls, cfg2) := h
    split at h2
    · exact Except.noConfusion h2
    · split at h2
      · exact genEvenDictLoop_bounds sc fuel kw perturbs m cfg [] [] ps ls
          cfg2 hpert (by intro q hq; simp at hq) h2
      · exact Except.noConfusion h2
  | all =>
    rw [hd] at h
    have h2 : genEvenCore sc fuel cfg nv kw perturbs = .ok (ps, ls, cfg2) := h
    exact genEvenCore_bounds sc fuel cfg nv kw perturbs ps ls cfg2 hpert h2
  | lst l =>
    rw [hd] at h
    have h2 : genEvenCore sc fuel cfg nv kw perturbs = .ok (ps, ls, cfg2) := h
    exact genEvenCore_bounds sc fuel cfg nv kw perturbs ps ls cfg2 hpert h2

/-- C9 witness: a huge sampled perturbation (100) on a 20 m edge leaves the
final offset clamped to the edge: the produced placement is `("a", 20)`. -/
theorem c9_witness : (0 : ℚ) ≤ ("a", (20 : ℚ)).2 ∧
    ("a", (20 : ℚ)).2 ≤ c9Sc.edge_length ("a", (20 : ℚ)).1 :=
  gen_even_perturb_in_range c9Sc 5 c9Cfg 1 kw0 (fun _ => 100) [("a", 20)] [0]
    c9Cfg (by norm_num [c9Cfg]) (by with_unfolding_all rfl) ("a", 20)
    (by decide)

theorem qmod_zero (m : ℚ) : qmod 0 m = 0 := by
  unfold qmod
  simp

theorem qmod_eq_self (a m : ℚ) (h0 : 0 ≤ a) (h1 : a < m) : qmod a m = a := by
  unfold qmod
  have hm : 0 < m := lt_of_le_of_lt h0 h1
  have hf : ⌊a / m⌋ = 0 := by
    rw [Int.floor_eq_zero_iff]
    exact Set.mem_Ico.mpr ⟨div_nonneg h0 hm.le, (div_lt_one hm).mpr h1⟩
  rw [hf]
  ring

theorem get_edge_single (L x : ℚ) (hx : 0 ≤ x) :
    (c7Scenario L).get_edge x = some ("e", x) := by
  unfold Scenario.get_edge
  have h1 : (c7Scenario L).total_edgestarts.reverse = [("e", 0)] := rfl
  rw [h1]
  have h2 : List.find? (fun p => decide (p.2 ≤ x)) [("e", (0 : ℚ))] =
      some ("e", 0) := by
    apply List.find?_cons_of_pos
    simpa using hx
  rw [h2]
  show some ("e", x - 0) = some ("e", x)
  rw [sub_zero]

theorem skipInternal_c7 (L : ℚ) (F : ℕ) (x : ℚ) (pos : String × ℚ) :
    skipInternal (c7Scenario L) F x pos = .ok (x, pos) := by
  cases F <;> simp [skipInternal, c7Scenario]

theorem findAvailable_c7 (L : ℚ) (F : ℕ) (x p : ℚ) :
    findAvailable (c7Scenario L) ["e"] F x ("e", p) = .ok (x, ("e", p)) := by
  cases F <;> simp [findAvailable]

theorem evenAdjust_false (sc : Scenario) (nv cc : ℤ) (inc x2 : ℚ)
    (pos2 : String × ℚ) :
    evenAdjust sc false nv cc inc x2 pos2 = (x2, pos2, inc) := by
  simp [evenAdjust]

theorem lanesPlaced_c7 (L : ℚ) (N j : ℕ) (hj : j < N) :
    lanesPlaced (c7Scenario L) 1 (N : ℤ) (j : ℤ) "e" = 1 := by
  unfold lanesPlaced
  have h1 : (c7Scenario L).num_lanes "e" = 1 := rfl
  rw [h1]
  omega

theorem c7_util (L g : ℚ) (N : ℕ) (hg : 0 ≤ g)
    (hL : g + VEHICLE_LENGTH < L)
    (hNL : (N : ℚ) * (g + VEHICLE_LENGTH) ≤ L) :
    (c7Scenario L).getStartPosUtil (c7Config g) (N : ℤ) kw0 =
      .ok (0, g, 0, 1, L - (N : ℚ) * (g + VEHICLE_LENGTH), ["e"]) := by
  have hmg : resolvedMinGap (c7Config g) = g := by
    unfold resolvedMinGap
    show max 0 g = g
    exact max_eq_right hg
  have hb : resolvedBunching (c7Config g) kw0 = 0 := by
    unfold resolvedBunching
    show (if (0 : ℚ) < 0 then (0 : ℚ) else 0) = 0
    norm_num
  have hld : lanesDistClamped (c7Config g) 1 = 1 := by
    unfold lanesDistClamped
    show (if (1 : ℤ) > 1 then (1 : ℤ) else if (1 : ℤ) < 1 then 1 else 1) = 1
    norm_num
  have hmax : maxLaneOpt (c7Scenario L) (c7Config g).edges_distribution =
      some 1 := rfl
  have havail : availableEdges (c7Scenario L)
      (c7Config g).edges_distribution (resolvedMinGap (c7Config g)) =
      ["e"] := by
    rw [hmg]
    unfold availableEdges
    have hel : distEdges (c7Scenario L) (c7Config g).edges_distribution =
        ["e"] := rfl
    rw [hel]
    have hcond : decide
        (g + VEHICLE_LENGTH < (c7Scenario L).edge_length "e") = true := by
      have hlen : (c7Scenario L).edge_length "e" = L := rfl
      rw [hlen]
      exact decide_eq_true hL
    simp only [List.filter]
    rw [hcond]
  have hdist : distributionLength (c7Scenario L)
      (c7Config g).edges_distribution (resolvedMinGap (c7Config g)) 1 =
      L := by
    unfold distributionLength
    rw [havail]
    show (0 : ℚ) + (c7Scenario L).edge_length "e" *
      ((min ((c7Scenario L).num_lanes "e") 1 : ℤ) : ℚ) = L
    have h1 : (c7Scenario L).edge_length "e" = L := rfl
    have h2 : (c7Scenario L).num_lanes "e" = 1 := rfl
    rw [h1, h2]
    norm_num
  have hdist2 : distributionLength (c7Scenario L)
      (c7Config g).edges_distribution g 1 = L := by
    rw [← hmg]
    exact hdist
  have havail2 : availableEdges (c7Scenario L)
      (c7Config g).edges_distribution g = ["e"] := by
    rw [← hmg]
    exact havail
  unfold Scenario.getStartPosUtil
  simp only [hmax, hld, hb, hmg, hdist2, havail2]
  rw [if_neg (by push_cast; linarith)]
  have hx0 : resolvedX0 (c7Config g) kw0 = 0 := rfl
  rw [hx0]
  simp only [Except.ok.injEq, Prod.mk.injEq, true_and, and_true]
  push_cast
  ring

set_option maxRecDepth 4000 in
theorem c7_loop (L g : ℚ) (N : ℕ) (hg : 0 ≤ g)
    (hL : g + VEHICLE_LENGTH < L) (hN : 1 ≤ N) :
    ∀ (k j F : ℕ) (ps : List (String × ℚ)) (ls : List ℤ),
      j + k = N → k ≤ F →
      evenLoop (c7Scenario L) ["e"] 1 g (N : ℤ) false F
        (qmod ((j : ℚ) * (L / (N : ℚ))) L) (j : ℤ)
        ((L - (N : ℚ) * (g + VEHICLE_LENGTH)) / (N : ℚ)) ps ls =
      .ok (ps ++ (List.range k).map
          (fun t => ("e", ((j + t : ℕ) : ℚ) * (L / (N : ℚ)))),
        ls ++ List.replicate k (0 : ℤ)) := by
  have hVL : (0 : ℚ) < VEHICLE_LENGTH := by norm_num [VEHICLE_LENGTH]
  have hLpos : 0 < L := by linarith
  have hNQ : (0 : ℚ) < (N : ℚ) := by
    have h1 : (1 : ℚ) ≤ (N : ℚ) := by exact_mod_cast hN
    linarith
  have hdiv : 0 < L / (N : ℚ) := div_pos hLpos hNQ
  have hN0 : (N : ℚ) ≠ 0 := ne_of_gt hNQ
  intro k
  induction k with
  | zero =>
    intro j F ps ls hjk hF
    have hj : j = N := by omega
    subst hj
    cases F with
    | zero =>
      rw [evenLoop, if_neg (lt_irrefl _)]
      simp
    | succ F2 =>
      rw [evenLoop, if_neg (lt_irrefl _)]
      simp
  | succ k ihk =>
    intro j F ps ls hjk hF
    have hjN : j < N := by omega
    obtain ⟨F2, rfl⟩ : ∃ F2, F = F2 + 1 := ⟨F - 1, by omega⟩
    have hcc : ((j : ℕ) : ℤ) < ((N : ℕ) : ℤ) := by exact_mod_cast hjN
    have hx0le : (0 : ℚ) ≤ (j : ℚ) * (L / (N : ℚ)) :=
      mul_nonneg (Nat.cast_nonneg j) (le_of_lt hdiv)
    have hxlt : (j : ℚ) * (L / (N : ℚ)) < L := by
      have h1 : (j : ℚ) < (N : ℚ) := by exact_mod_cast hjN
      have h2 : (j : ℚ) * (L / (N : ℚ)) < (N : ℚ) * (L / (N : ℚ)) :=
        mul_lt_mul_of_pos_right h1 hdiv
      have h3 : (N : ℚ) * (L / (N : ℚ)) = L := by field_simp
      linarith
    have hx : qmod ((j : ℚ) * (L / (N : ℚ))) L = (j : ℚ) * (L / (N : ℚ)) :=
      qmod_eq_self _ _ hx0le hxlt
    rw [evenLoop, if_pos hcc, hx]
    simp only [get_edge_single L _ hx0le, skipInternal_c7, findAvailable_c7,
      evenAdjust_false, lanesPlaced_c7 L N j hjN]
    have harith : (j : ℚ) * (L / (N : ℚ))
        + (L - (N : ℚ) * (g + VEHICLE_LENGTH)) / (N : ℚ)
        + VEHICLE_LENGTH + g
        = ((j + 1 : ℕ) : ℚ) * (L / (N : ℚ)) := by
      push_cast
      field_simp
      ring
    rw [harith]
    have hslen : (c7Scenario L).length = L := rfl
    rw [hslen]
    have hcast : ((j : ℕ) : ℤ) + ((1 : ℕ) : ℤ) = ((j + 1 : ℕ) : ℤ) := by
      push_cast
      ring
    rw [hcast]
    have hrep : List.replicate 1 ("e", (j : ℚ) * (L / (N : ℚ))) =
        [("e", (j : ℚ) * (L / (N : ℚ)))] := rfl
    have hrng : (List.range 1).map (fun i => (i : ℤ)) = [(0 : ℤ)] := rfl
    rw [hrep, hrng]
    rw [ihk (j + 1) F2 (ps ++ [("e", (j : ℚ) * (L / (N : ℚ)))])
      (ls ++ [(0 : ℤ)]) (by omega) (by omega)]
    have hhead : ("e", ((j : ℕ) : ℚ) * (L / (N : ℚ))) =
        ("e", ((j + 0 : ℕ) : ℚ) * (L / (N : ℚ))) := by
      norm_num
    have hmap : (List.range k).map
          (fun t => ("e", ((j + 1 + t : ℕ) : ℚ) * (L / (N : ℚ))))
        = (List.range k).map
          ((fun t => ("e", ((j + t : ℕ) : ℚ) * (L / (N : ℚ)))) ∘ Nat.succ) := by
      apply List.map_congr_left
      intro t ht
      have h5 : j + 1 + t = j + Nat.succ t := by omega
      show ("e", ((j + 1 + t : ℕ) : ℚ) * (L / (N : ℚ))) =
        ("e", ((j + Nat.succ t : ℕ) : ℚ) * (L / (N : ℚ)))
      rw [h5]
    rw [List.append_assoc ps, List.singleton_append, List.append_assoc ls,
      List.singleton_append, List.range_succ_eq_map, List.map_cons,
      List.map_map, List.replicate_succ, hhead, hmap]

/-- C7: on a single eligible edge of length `L` with one lane, `x0 = 0`,
`min_gap = g ≥ 0`, no bunching and no perturbation, the uniform strategy
places the `N` vehicles at offsets `0, L/N, 2L/N, …`: the offsets are strictly
increasing and consecutive offsets differ exactly by
`(L - N·(VEHICLE_LENGTH + g))/N + VEHICLE_LENGTH + g` (which equals `L/N`). -/
theorem gen_even_uniform_spacing (L g : ℚ) (N F : ℕ)
    (hg : 0 ≤ g) (hL : g + VEHICLE_LENGTH < L)
    (hNL : (N : ℚ) * (g + VEHICLE_LENGTH) ≤ L) (hN : 1 ≤ N) (hF : N ≤ F) :
    gen_even_start_pos (c7Scenario L) F (c7Config g) (N : ℤ) kw0 pert0 =
      .ok ((List.range N).map (fun t : ℕ => ("e", (t : ℚ) * (L / (N : ℚ)))),
        List.replicate N (0 : ℤ), c7Config g) ∧
    List.Chain' (fun a b => b - a =
        (L - (N : ℚ) * (VEHICLE_LENGTH + g)) / (N : ℚ) + VEHICLE_LENGTH + g)
      (((List.range N).map
        (fun t : ℕ => ("e", (t : ℚ) * (L / (N : ℚ))))).map Prod.snd) ∧
    List.Chain' (· < ·)
      (((List.range N).map
        (fun t : ℕ => ("e", (t : ℚ) * (L / (N : ℚ))))).map Prod.snd) := by
  have hNQ : (0 : ℚ) < (N : ℚ) := by
    have h1 : (1 : ℚ) ≤ (N : ℚ) := by exact_mod_cast hN
    linarith
  have hN0 : (N : ℚ) ≠ 0 := ne_of_gt hNQ
  have hVL : (0 : ℚ) < VEHICLE_LENGTH := by norm_num [VEHICLE_LENGTH]
  have hLpos : 0 < L := by linarith
  have hdiv : 0 < L / (N : ℚ) := div_pos hLpos hNQ
  have hsnd : (((List.range N).map
      (fun t : ℕ => ("e", (t : ℚ) * (L / (N : ℚ))))).map Prod.snd)
      = (List.range N).map (fun t : ℕ => (t : ℚ) * (L / (N : ℚ))) := by
    rw [List.map_map]
    rfl
  refine ⟨?_, ?_, ?_⟩
  · have hloop := c7_loop L g N hg hL hN N 0 F [] [] (by omega) hF
    have h0x : qmod (((0 : ℕ) : ℚ) * (L / (N : ℚ))) L = 0 := by
      rw [Nat.cast_zero, zero_mul, qmod_zero]
    rw [h0x] at hloop
    simp only [Nat.cast_zero, List.nil_append, Nat.zero_add] at hloop
    show genEvenCore (c7Scenario L) F (c7Config g) ((N : ℕ) : ℤ) kw0 pert0 = _
    unfold genEvenCore
    simp only [c7_util L g N hg hL hNL]
    rw [if_neg (show ¬ ((N : ℕ) : ℤ) = 0 by omega)]
    have hflag : laneFlag ((c7Scenario L).get_edge_list.map
        (c7Scenario L).num_lanes) = false := rfl
    rw [hflag]
    simp only [Int.cast_natCast]
    simp only [hloop]
    have hp : ¬ ((c7Config g).perturbation > 0) := by
      show ¬ ((0 : ℚ) < 0)
      norm_num
    rw [if_neg hp]
  · rw [hsnd]
    obtain ⟨M, rfl⟩ : ∃ M, N = M + 1 := ⟨N - 1, by omega⟩
    rw [List.chain'_map, List.chain'_range_succ]
    intro m hm
    show ((m + 1 : ℕ) : ℚ) * (L / ((M + 1 : ℕ) : ℚ))
        - (m : ℚ) * (L / ((M + 1 : ℕ) : ℚ))
      = (L - ((M + 1 : ℕ) : ℚ) * (VEHICLE_LENGTH + g)) / ((M + 1 : ℕ) : ℚ)
        + VEHICLE_LENGTH + g
    push_cast
    field_simp
    ring
  · rw [hsnd]
    obtain ⟨M, rfl⟩ : ∃ M, N = M + 1 := ⟨N - 1, by omega⟩
    rw [List.chain'_map, List.chain'_range_succ]
    intro m hm
    show (m : ℚ) * (L / ((M + 1 : ℕ) : ℚ))
      < ((m + 1 : ℕ) : ℚ) * (L / ((M + 1 : ℕ) : ℚ))
    have hmlt : (m : ℚ) < ((m + 1 : ℕ) : ℚ) := by push_cast; linarith
    exact mul_lt_mul_of_pos_right hmlt hdiv

/-- C7 witness: the uniform-spacing statement at `L = 100`, `g = 0`, `N = 4`:
offsets `0, 25, 50, 75` with consecutive difference `(100 - 4·5)/4 + 5 = 25`. -/
theorem c7_witness :
    gen_even_start_pos (c7Scenario 100) 5 (c7Config 0) ((4 : ℕ) : ℤ) kw0
      pert0 =
      .ok ((List.range 4).map
          (fun t : ℕ => ("e", (t : ℚ) * (100 / ((4 : ℕ) : ℚ)))),
        List.replicate 4 (0 : ℤ), c7Config 0) ∧
    List.Chain' (fun a b => b - a =
        (100 - ((4 : ℕ) : ℚ) * (VEHICLE_LENGTH + 0)) / ((4 : ℕ) : ℚ)
          + VEHICLE_LENGTH + 0)
      (((List.range 4).map
        (fun t : ℕ => ("e", (t : ℚ) * (100 / ((4 : ℕ) : ℚ))))).map
        Prod.snd) ∧
    List.Chain' (· < ·)
      (((List.range 4).map
        (fun t : ℕ => ("e", (t : ℚ) * (100 / ((4 : ℕ) : ℚ))))).map
        Prod.snd) :=
  gen_even_uniform_spacing 100 0 4 5 (le_refl 0)
    (by norm_num [VEHICLE_LENGTH]) (by norm_num [VEHICLE_LENGTH])
    (by norm_num) (by norm_num)
